import Mathlib

/-!
Verification of the business-submission validation and normalization pipeline
of the onfindr web application, together with its waitlist deduplication
mutation and the admin business-update mutation.

The TypeScript sources are shallowly embedded: JavaScript strings are modelled
as Lean `String` (lists of characters; all inputs of interest are ASCII),
JSON request bodies as an inductive `Json` type, and the Convex database
tables as Lean lists.  Regular expressions appearing in the source are
translated into structural matchers over `List Char` that are faithful to the
(deterministic) regexes they model.
-/

namespace Onfindr

/-- The JavaScript whitespace class `\s`, restricted to its ASCII members
(space, tab, line feed, carriage return, vertical tab, form feed). -/
def isWsChar (c : Char) : Bool :=
  c == ' ' || c == '\t' || c == '\n' || c == '\r' || c == '\x0b' || c == '\x0c'

/-- `String.prototype.trim()` on the character list: drop whitespace from both
ends. -/
def trimL (l : List Char) : List Char :=
  ((l.dropWhile isWsChar).reverse.dropWhile isWsChar).reverse

/-- `String.prototype.trim()`. -/
def jsTrim (s : String) : String := ⟨trimL s.data⟩

/-- `String.prototype.toLowerCase()` (ASCII fragment). -/
def jsToLower (s : String) : String := ⟨s.data.map Char.toLower⟩

/-! ## JSON values and the submission form

`Json` models a parsed JSON request body (`await request.json()`).
`RawForm` models the seven keys the Zod schema `SubmitBusinessFormSchema`
(apps/web/src/types/submitBusiness.ts, variant with phone and website)
reads from the body: each is absent (`none`) or some JSON value. -/
inductive Json where
  | null : Json
  | bool (b : Bool) : Json
  | num (n : Int) : Json
  | str (s : String) : Json
  | arr (elems : List Json) : Json
  | obj (fields : List (String × Json)) : Json

/-- The seven form fields of the submission schema, in schema order. -/
inductive Field where
  | nameF | descriptionF | emailF | openingTimeF | closingTimeF | phoneF | websiteF
deriving DecidableEq

/-- The untyped key/value record handed to the Zod schema. -/
structure RawForm where
  name : Option Json
  description : Option Json
  email : Option Json
  openingTime : Option Json
  closingTime : Option Json
  phone : Option Json
  website : Option Json

/-! ### Structural matchers for the schema regexes -/

/-- `\d{3}`: consume exactly three digits. -/
def dig3 : List Char → Option (List Char)
  | a :: b :: c :: r => if a.isDigit && b.isDigit && c.isDigit then some r else none
  | _ => none

/-- `\s?`: consume at most one whitespace character (deterministic because in
the phone regex a digit always follows). -/
def skipOptWs : List Char → List Char
  | [] => []
  | c :: r => if isWsChar c then r else c :: r

/-- `x?` for a literal character (deterministic in the phone regex because a
digit or end of input always follows). -/
def skipOptChar (x : Char) : List Char → List Char
  | [] => []
  | c :: r => if c == x then r else c :: r

/-- First alternative of the UK phone regex: `\+44\s?7\d{3}$`. -/
def phoneAlt1 (l : List Char) : Bool :=
  match l with
  | '+' :: '4' :: '4' :: r =>
    match skipOptWs r with
    | '7' :: r2 => dig3 r2 == some []
    | _ => false
  | _ => false

/-- Second alternative: `\(?07\d{3}\)?\s?\d{3}\s?\d{3}$`. -/
def phoneAlt2 (l : List Char) : Bool :=
  match skipOptChar '(' l with
  | '0' :: '7' :: r =>
    match dig3 r with
    | some r2 =>
      match dig3 (skipOptWs (skipOptChar ')' r2)) with
      | some r3 => dig3 (skipOptWs r3) == some []
      | none => false
    | none => false
  | _ => false

/-- Third alternative: `7\d{3}\s?\d{3}\s?\d{3}$`. -/
def phoneAlt3 (l : List Char) : Bool :=
  match l with
  | '7' :: r =>
    match dig3 r with
    | some r2 =>
      match dig3 (skipOptWs r2) with
      | some r3 => dig3 (skipOptWs r3) == some []
      | none => false
    | none => false
  | _ => false

/-- The anchored UK phone regex
`^(\+44\s?7\d{3}|\(?07\d{3}\)?\s?\d{3}\s?\d{3}|7\d{3}\s?\d{3}\s?\d{3})$`. -/
def phoneRegex (s : String) : Bool :=
  phoneAlt1 s.data || phoneAlt2 s.data || phoneAlt3 s.data

/-- A nonempty phone string accepted by the schema chain
`.min(10).regex(ukPhoneRegex)`. -/
def phoneAccept (s : String) : Bool :=
  decide (s.length ≥ 10) && phoneRegex s

/-- The time-of-day regex `^([01]?[0-9]|2[0-3]):[0-5][0-9]$`. -/
def timeRegex (s : String) : Bool :=
  match s.data with
  | [h, ':', m1, m2] =>
    h.isDigit && ('0' ≤ m1 && m1 ≤ '5') && m2.isDigit
  | [h1, h2, ':', m1, m2] =>
    (((h1 == '0' || h1 == '1') && h2.isDigit) ||
      (h1 == '2' && ('0' ≤ h2 && h2 ≤ '3'))) &&
    ('0' ≤ m1 && m1 ≤ '5') && m2.isDigit
  | _ => false

/-- Minutes after midnight denoted by a string matching `timeRegex`; used to
model the comparison of the two `new Date("2000-01-01T<time>:00")` values in
the route handler (for fixed date and valid times, the `Date` order is the
minutes-of-day order). -/
def timeToMinutes (s : String) : Nat :=
  match s.data with
  | [h, ':', m1, m2] => (h.toNat - 48) * 60 + (m1.toNat - 48) * 10 + (m2.toNat - 48)
  | [h1, h2, ':', m1, m2] =>
    ((h1.toNat - 48) * 10 + (h2.toNat - 48)) * 60 + (m1.toNat - 48) * 10 + (m2.toNat - 48)
  | _ => 0

/-- The website regex `^[a-zA-Z0-9][a-zA-Z0-9.-]*[a-zA-Z0-9]\.?$`. -/
def websiteRegex (s : String) : Bool :=
  match s.data with
  | c :: rest =>
    c.isAlphanum &&
    (let core := if rest.getLast? == some '.' then rest.dropLast else rest
     match core.getLast? with
     | some last => last.isAlphanum &&
         core.dropLast.all (fun x => x.isAlphanum || x == '.' || x == '-')
     | none => false)
  | [] => false

/-- A nonempty website string accepted by the schema chain
`.min(3).max(100).regex(domainRegex)`. -/
def websiteAccept (s : String) : Bool :=
  decide (s.length ≥ 3) && decide (s.length ≤ 100) && websiteRegex s

/-! ### The Zod email check

Model of `z.string().email()` (Zod), per its anchored email regex: a local
part of characters `[A-Za-z0-9._+'-]` that does not start with a dot, has no
two consecutive dots and does not end with a dot, then `@`, then one or more
alphanumeric/hyphen labels each starting alphanumeric, a dot, and an
alphabetic top-level label of length at least 2. -/
def emailLocalChar (c : Char) : Bool :=
  c.isAlphanum || c == '.' || c == '_' || c == '+' || c == '-' || c == '\x27'

/-- No two consecutive dots. -/
def noDoubleDot : List Char → Bool
  | '.' :: '.' :: _ => false
  | _ :: r => noDoubleDot r
  | [] => true

def emailLocalOk (l : List Char) : Bool :=
  !l.isEmpty && l.all emailLocalChar && !(l.head? == some '.') && noDoubleDot l &&
    (match l.getLast? with
     | some c => c.isAlphanum || c == '_' || c == '+' || c == '-'
     | none => false)

def emailDomainChar (c : Char) : Bool :=
  c.isAlphanum || c == '-' || c == '.'

/-- Split a character list at every occurrence of `sep`. -/
def splitOnChar (sep : Char) : List Char → List (List Char)
  | [] => [[]]
  | c :: r =>
    let rest := splitOnChar sep r
    if c == sep then [] :: rest
    else
      match rest with
      | h :: t => (c :: h) :: t
      | [] => [[c]]

def emailLabelOk (l : List Char) : Bool :=
  match l with
  | c :: rest => c.isAlphanum && rest.all (fun x => x.isAlphanum || x == '-')
  | [] => false

def emailTldOk (l : List Char) : Bool :=
  decide (l.length ≥ 2) && l.all Char.isAlpha

def emailDomainOk (l : List Char) : Bool :=
  l.all emailDomainChar &&
  (let labels := splitOnChar '.' l
   decide (labels.length ≥ 2) && labels.dropLast.all emailLabelOk &&
     (match labels.getLast? with
      | some tld => emailTldOk tld
      | none => false))

/-- `z.string().email()`. -/
def emailOk (s : String) : Bool :=
  match s.data.dropWhile (fun c => !(c == '@')) with
  | '@' :: dp =>
    emailLocalOk (s.data.takeWhile (fun c => !(c == '@'))) &&
      emailDomainOk dp && dp.all (fun c => !(c == '@'))
  | _ => false

/-! ### Per-field validation (the Zod schema checks) -/

/-- Errors of the `name` chain
`.min(1).min(2).max(100).refine(trimmed length at least 2)`. -/
def nameCheckMsg (s : String) : Option String :=
  if s.length < 1 then some "Business name is required"
  else if s.length < 2 then some "Business name must be at least 2 characters"
  else if s.length > 100 then some "Business name cannot exceed 100 characters"
  else if (jsTrim s).length < 2 then some "Business name cannot be only whitespace"
  else none

/-- Errors of the `description` chain
`.min(1).min(10).max(500).refine(trimmed length at least 10)`. -/
def descriptionCheckMsg (s : String) : Option String :=
  if s.length < 1 then some "Description is required"
  else if s.length < 10 then some "Description must be at least 10 characters"
  else if s.length > 500 then some "Description cannot exceed 500 characters"
  else if (jsTrim s).length < 10 then some "Description cannot be only whitespace"
  else none

/-- Errors of the `email` chain `.min(1).email(...)`. -/
def emailCheckMsg (s : String) : Option String :=
  if s.length < 1 then some "Email is required"
  else if !emailOk s then some "Please enter a valid email address"
  else none

/-- Errors of the `openingTime`/`closingTime` regex check. -/
def timeCheckMsg (s : String) : Option String :=
  if !timeRegex s then some "Please enter a valid time (HH:MM format, 24-hour)"
  else none

/-- Errors of the `phone` chain `.min(10).regex(ukPhoneRegex)`. -/
def phoneCheckMsg (s : String) : Option String :=
  if s.length < 10 then some "Phone number must be at least 10 digits"
  else if !phoneRegex s then some "Please enter a valid UK phone number"
  else none

/-- Errors of the `website` chain `.min(3).max(100).regex(domainRegex)`. -/
def websiteCheckMsg (s : String) : Option String :=
  if s.length < 3 then some "Website must be at least 3 characters"
  else if s.length > 100 then some "Website cannot exceed 100 characters"
  else if !websiteRegex s then some "Please enter a valid domain name"
  else none

/-- A required string field: a missing key yields Zod's `Required`
invalid-type issue, a non-string value an invalid-type issue. -/
def reqFieldErr (check : String → Option String) : Option Json → Option String
  | none => some "Required"
  | some (.str s) => check s
  | some _ => some "Expected string"

/-- An optional field built with `.optional().or(z.literal(''))`: absent and
empty string are accepted, other strings run the checks, non-strings fail. -/
def optFieldErr (check : String → Option String) : Option Json → Option String
  | none => none
  | some (.str s) => if s == "" then none else check s
  | some _ => some "Invalid input"

/-- One error-map entry per failed field. -/
def entryOf (f : Field) : Option String → List (Field × String)
  | some m => [(f, m)]
  | none => []

/-- The field→message error list collected by the schema over all seven
fields, in schema declaration order. -/
def fieldErrors (r : RawForm) : List (Field × String) :=
  entryOf .nameF (reqFieldErr nameCheckMsg r.name) ++
  entryOf .descriptionF (reqFieldErr descriptionCheckMsg r.description) ++
  entryOf .emailF (reqFieldErr emailCheckMsg r.email) ++
  entryOf .openingTimeF (optFieldErr timeCheckMsg r.openingTime) ++
  entryOf .closingTimeF (optFieldErr timeCheckMsg r.closingTime) ++
  entryOf .phoneF (optFieldErr phoneCheckMsg r.phone) ++
  entryOf .websiteF (optFieldErr websiteCheckMsg r.website)

/-! ### Normalization -/

/-- The validated record produced by the schema transform: required fields
and phone/website are strings (absent optionals became `''`), the two time
fields are passed through unchanged. -/
structure NormForm where
  name : String
  description : String
  email : String
  phone : String
  website : String
  openingTime : Option String
  closingTime : Option String
deriving DecidableEq

def strOrEmpty : Option Json → String
  | some (.str s) => s
  | _ => ""

def strOpt : Option Json → Option String
  | some (.str s) => some s
  | _ => none

/-- `replace(/^www\./i, '')`: strip one leading `www.` (case-insensitive). -/
def stripWww (s : String) : String :=
  if (s.data.take 4).map Char.toLower == "www.".data then ⟨s.data.drop 4⟩ else s

/-- `replace(/^https?:\/\//i, '')`: strip one leading scheme
(case-insensitive; at most one of the two prefixes can match). -/
def stripScheme (s : String) : String :=
  if (s.data.take 7).map Char.toLower == "http://".data then ⟨s.data.drop 7⟩
  else if (s.data.take 8).map Char.toLower == "https://".data then ⟨s.data.drop 8⟩
  else s

/-- The schema `.transform`: trim `name`/`description`/`email`/`phone`, trim
`website` and strip a leading `www.`, pass the time fields through. -/
def schemaTransform (r : RawForm) : NormForm :=
  { name := jsTrim (strOrEmpty r.name)
    description := jsTrim (strOrEmpty r.description)
    email := jsTrim (strOrEmpty r.email)
    phone := jsTrim (strOrEmpty r.phone)
    website :=
      let w := strOrEmpty r.website
      if w == "" then "" else stripWww (jsTrim w)
    openingTime := strOpt r.openingTime
    closingTime := strOpt r.closingTime }

/-- `l.take n == p` for a concrete prefix `p` (`String.startsWith`). -/
def leadsWith (p : List Char) (l : List Char) : Bool :=
  l.take p.length == p

/-- `phone.replace(/[^\d+]/g, '')`: keep digits and plus signs. -/
def cleanPhone (s : String) : List Char :=
  s.data.filter (fun c => c.isDigit || c == '+')

/-- `formatUKPhone` from app/api/submit-business/route.ts. -/
def formatUKPhone (s : String) : String :=
  if jsTrim s == "" then ""
  else
    let c := cleanPhone s
    if leadsWith ['0', '7'] c then ⟨'+' :: '4' :: '4' :: c.drop 1⟩
    else if leadsWith ['4', '4'] c && decide (c.length > 10) then ⟨'+' :: c⟩
    else if c.length == 10 && leadsWith ['7'] c then ⟨'+' :: '4' :: '4' :: '7' :: c.drop 1⟩
    else if c.length == 10 && !leadsWith ['0'] c then ⟨'+' :: '4' :: '4' :: c⟩
    else ⟨c⟩

/-- The non-fatal warning of the route handler: for both times present and
nonempty (hence schema-valid), warn when opening ≥ closing; the `Date`
comparison of `2000-01-01T<time>:00` values is the minutes-of-day order. -/
def timeWarningMsg : String :=
  "Note: Opening time appears to be after or equal to closing time."

def timeWarning (o c : Option String) : String :=
  match o, c with
  | some a, some b =>
    if a == "" || b == "" then ""
    else if timeToMinutes b ≤ timeToMinutes a then timeWarningMsg
    else ""
  | _, _ => ""

/-- The submission pipeline on an untyped record: collect all field errors;
if none, apply the schema transform, compute the time warning, and format
the phone for consistency. -/
def validate (r : RawForm) : Except (List (Field × String)) (NormForm × String) :=
  match fieldErrors r with
  | [] =>
    let t := schemaTransform r
    let w := timeWarning t.openingTime t.closingTime
    .ok ({ t with phone := formatUKPhone t.phone }, w)
  | errs => .error errs

/-! ### The HTTP layer (POST handler body checks) -/

/-- JavaScript truthiness of a JSON value (`!bodyData`). -/
def jsFalsy : Json → Bool
  | .null => true
  | .bool b => !b
  | .num n => n == 0
  | .str s => s == ""
  | _ => false

/-- `typeof bodyData === 'object'` (true for objects, arrays and null). -/
def typeofIsObject : Json → Bool
  | .null => true
  | .arr _ => true
  | .obj _ => true
  | _ => false

def isJsArray : Json → Bool
  | .arr _ => true
  | _ => false

/-- The shape check of the POST handler:
`!bodyData || typeof bodyData !== 'object' || Array.isArray(bodyData)`. -/
def malformedShape (j : Json) : Bool :=
  jsFalsy j || !typeofIsObject j || isJsArray j

inductive ApiResponse where
  | malformed : ApiResponse
  | validationFailed (errs : List (Field × String)) : ApiResponse
  | created (out : NormForm) (warning : String) : ApiResponse
deriving DecidableEq

/-- HTTP status code of each response of the handler. -/
def statusOf : ApiResponse → Nat
  | .malformed => 400
  | .validationFailed _ => 400
  | .created _ _ => 201

/-- Key lookup in a parsed JSON object (keys of `JSON.parse` output are
unique). -/
def lookupField (fields : List (String × Json)) (k : String) : Option Json :=
  (fields.find? (fun p => p.1 == k)).map Prod.snd

def formOfObj (fields : List (String × Json)) : RawForm :=
  { name := lookupField fields "name"
    description := lookupField fields "description"
    email := lookupField fields "email"
    openingTime := lookupField fields "openingTime"
    closingTime := lookupField fields "closingTime"
    phone := lookupField fields "phone"
    website := lookupField fields "website" }

/-- The POST handler: shape-check the parsed body, then run the pipeline.
Every outcome is a structured response; no input throws. -/
def apiPOST (j : Json) : ApiResponse :=
  if malformedShape j then .malformed
  else
    match j with
    | .obj fields =>
      match validate (formOfObj fields) with
      | .ok (out, w) => .created out w
      | .error errs => .validationFailed errs
    | _ => .malformed

/-! ### The form component website normalization (SubmitBusinessForm.tsx)

`submitData.website = data.website
   ? data.website.trim().replace(/^https?:\/\//i, '').replace(/^www\./i, '')
   : ''` -/
def submitDataWebsite (w : Option String) : String :=
  match w with
  | none => ""
  | some s => if s == "" then "" else stripWww (stripScheme (jsTrim s))

/-! ## The waitlist `addEmail` mutation (Convex)

The `waitlist` table is modelled as a list of entries plus a fresh-id
counter; `ctx.db.insert` appends with the fresh id.  The indexed query
`.withIndex("by_email", q.eq("email", normalizedEmail)).unique()` is
modelled by `find?`; `unique()` requires at most one match, which holds
under the one-entry-per-email invariant `emailUnique`. -/
structure WaitlistEntry where
  id : Nat
  email : String
  name : Option String
  phone : Option String
deriving DecidableEq

structure WaitlistStore where
  entries : List WaitlistEntry
  nextId : Nat
deriving DecidableEq

/-- `args.email.trim().toLowerCase()`. -/
def normalizeEmail (e : String) : String := jsToLower (jsTrim e)

/-- The `addEmail` mutation handler: return the existing entry id for the
normalized email, or insert a new entry (the handler computes the normalized
email once and uses it both for lookup and insertion). -/
def addEmail (st : WaitlistStore) (email : String) (name phone : Option String) :
    WaitlistStore × Nat :=
  match st.entries.find? (fun e => e.email == normalizeEmail email) with
  | some e => (st, e.id)
  | none =>
    (⟨st.entries ++ [⟨st.nextId, normalizeEmail email, name, phone⟩],
      st.nextId + 1⟩, st.nextId)

/-- At most one waitlist entry per email (what `.unique()` relies on). -/
def emailUnique (st : WaitlistStore) : Prop :=
  st.entries.Pairwise (fun a b => a.email ≠ b.email)

/-! ## The `updateBusiness` mutation and the `EditBusiness` action

Only the columns `updateBusiness` reads or writes are modelled
(`name`, `description`, `email`, `slug`); the other optional columns of the
`businesses` table are untouched by the mutation. -/
structure Business where
  id : Nat
  name : String
  description : Option String
  email : Option String
  slug : Option String
deriving DecidableEq

structure UpdateBusinessArgs where
  name : Option String
  description : Option String
  email : Option String
  slug : Option String
deriving DecidableEq

/-- `\s+` runs replaced by a single `'-'` (`replace(/\s+/g, "-")`); the
Boolean argument records whether the previous character was whitespace. -/
def collapseWsAux : Bool → List Char → List Char
  | _, [] => []
  | inRun, c :: r =>
    if isWsChar c then
      if inRun then collapseWsAux true r else '-' :: collapseWsAux true r
    else c :: collapseWsAux false r

/-- `s.trim().toLowerCase().replace(/\s+/g, "-")` — the slug derivation used
both by the `EditBusiness` action and inside `updateBusiness`. -/
def slugify (s : String) : String :=
  ⟨collapseWsAux false (jsToLower (jsTrim s)).data⟩

/-- JS `replace` of every hyphen by the empty string. -/
def removeHyphens (s : String) : String :=
  ⟨s.data.filter (fun c => !(c == '-'))⟩

/-- `(args.business.slug ?? args.business.name) ?? ""`, then
`baseForSlug ? slugify(baseForSlug) : undefined`. -/
def desiredSlugOf (args : UpdateBusinessArgs) : Option String :=
  let base := (args.slug.or args.name).getD ""
  if base == "" then none else some (slugify base)

/-- `businesses.find((b) => b.slug === desiredSlug)` (skipped when
`desiredSlug` is undefined). -/
def existingBySlugOf (st : List Business) (args : UpdateBusinessArgs) :
    Option Business :=
  match desiredSlugOf args with
  | some s => st.find? (fun b => b.slug == some s)
  | none => none

/-- `args.business.name ? businesses.find((b) => b.name === name) :
undefined`. -/
def existingByNameOf (st : List Business) (args : UpdateBusinessArgs) :
    Option Business :=
  match args.name with
  | some n => if n == "" then none else st.find? (fun b => b.name == n)
  | none => none

/-- `(desiredSlug ?? target.slug) ? strip hyphens : undefined`. -/
def normalizedSlugOf (args : UpdateBusinessArgs) (target : Business) :
    Option String :=
  match (desiredSlugOf args).or target.slug with
  | some s => if s == "" then none else some (removeHyphens s)
  | none => none

/-- The `updateBusiness` mutation handler.  `ctx.db.patch` sets every listed
field; a field patched with an `undefined` value is removed, and removing
the schema-required `name` column makes the write fail — modelled as the
final error case (never reached by the theorems below, which always pass a
name). -/
def updateBusiness (st : List Business) (args : UpdateBusinessArgs) :
    Except String (List Business) :=
  match (existingBySlugOf st args).or (existingByNameOf st args) with
  | none => .error "Business not found"
  | some target =>
    match args.name with
    | none => .error "patch removes required field name"
    | some n =>
      .ok (st.map (fun b =>
        if b.id == target.id then
          { b with name := n, description := args.description,
                   email := args.email, slug := normalizedSlugOf args target }
        else b))

/-- The `EditBusiness` server action: derive the slug from the form name and
call `updateBusiness` with all form fields. -/
def EditBusiness (st : List Business) (name description email : String) :
    Except String (List Business) :=
  updateBusiness st
    { name := some name, description := some description,
      email := some email, slug := some (slugify name) }

/-! ## Definitions following the wording of the specification

These are written from the spec text only, to be compared with the source
functions above (refinement); they are not used inside the pipeline. -/

/-- Spec wording (§4.1 step 4): strip all characters except digits and a
leading plus sign. -/
def specCleanPhone (s : String) : List Char :=
  match s.data with
  | '+' :: r => '+' :: r.filter Char.isDigit
  | l => l.filter Char.isDigit

/-- Spec wording: map a recognizable UK pattern to canonical `+44` form —
leading `07`: replace the `0` by `+44`; bare 10-digit starting `7`: prefix
`+44`; leading `44` without plus: prepend `+`; otherwise pass the cleaned
digits through. -/
def specPhoneNormalize (s : String) : String :=
  let c := specCleanPhone s
  if leadsWith ['0', '7'] c then ⟨'+' :: '4' :: '4' :: c.drop 1⟩
  else if c.length == 10 && leadsWith ['7'] c then ⟨'+' :: '4' :: '4' :: c⟩
  else if leadsWith ['4', '4'] c then ⟨'+' :: c⟩
  else ⟨c⟩

/-- The three canonical digit shapes named by claim C6: `07` plus nine
digits, `+447` plus nine digits, or `7` plus nine digits (hence always at
least ten significant digits). -/
def ukShape (t : List Char) : Bool :=
  match t with
  | '0' :: '7' :: r => decide (r.length = 9) && r.all Char.isDigit
  | '+' :: '4' :: '4' :: '7' :: r => decide (r.length = 9) && r.all Char.isDigit
  | '7' :: r => decide (r.length = 9) && r.all Char.isDigit
  | _ => false

/-- The UK pattern as the claim words it: one of the three forms with
optional internal spaces. -/
def claimUKPattern (s : String) : Bool :=
  ukShape (s.data.filter (fun c => !isWsChar c))

/-- The amended pattern: optional internal spaces and parentheses. -/
def claimUKPatternParen (s : String) : Bool :=
  ukShape (s.data.filter (fun c => !(isWsChar c || c == '(' || c == ')')))

/-- The required fields missing from a record, in schema order. -/
def missingRequired (r : RawForm) : List Field :=
  (if r.name.isNone then [Field.nameF] else []) ++
  (if r.description.isNone then [Field.descriptionF] else []) ++
  (if r.email.isNone then [Field.emailF] else [])

/-- Character classification of a string matched by the phone regex. -/
def phoneChar (c : Char) : Prop :=
  c.isDigit = true ∨ isWsChar c = true ∨ c = '(' ∨ c = ')'

/-- Re-submitting a validated record: every normalized field presented back
as a JSON string (the time fields as they came through). -/
def toRawForm (n : NormForm) : RawForm :=
  { name := some (.str n.name)
    description := some (.str n.description)
    email := some (.str n.email)
    openingTime := n.openingTime.map .str
    closingTime := n.closingTime.map .str
    phone := some (.str n.phone)
    website := some (.str n.website) }

/-! ## Concrete inputs used by the claim theorems -/

/-- Missing `name`, valid `description`/`email`, invalid `openingTime`. -/
def c1cex : RawForm :=
  ⟨none, some (.str "0123456789"), some (.str "a@b.co"),
    some (.str "99:99"), none, none, none⟩

/-- Missing `name`, everything provided valid. -/
def c1wit : RawForm :=
  ⟨none, some (.str "0123456789"), some (.str "a@b.co"), none, none, none, none⟩

/-- A fully valid submission whose phone is `07123 456789`. -/
def c2cex : RawForm :=
  ⟨some (.str "AB"), some (.str "0123456789"), some (.str "a@b.co"),
    none, none, some (.str "07123 456789"), none⟩

/-- A fully valid submission with empty optional fields and both times. -/
def c2wit : RawForm :=
  ⟨some (.str "AB"), some (.str "0123456789"), some (.str "a@b.co"),
    some (.str "09:00"), some (.str "17:00"), none, none⟩

/-- Whether re-validating the normalized output of a successful validation
succeeds. -/
def revalidateOk (r : RawForm) : Bool :=
  match validate r with
  | .ok (o, _) => (validate (toRawForm o)).isOk
  | .error _ => false

/-- Extract the normalized phone of a successful validation. -/
def validatedPhone (r : RawForm) : String :=
  match validate r with
  | .ok (o, _) => o.phone
  | .error _ => ""

/-- A fully valid submission with phone `07123 456789` (claim C3 example). -/
def c3wit : RawForm :=
  ⟨some (.str "My Shop"), some (.str "A nice place to shop."),
    some (.str "owner@shop.co.uk"), none, none,
    some (.str "07123 456789"), none⟩

/-- A fully valid submission with `openingTime 18:00` and
`closingTime 09:00`. -/
def c4wit : RawForm :=
  ⟨some (.str "AB"), some (.str "0123456789"), some (.str "a@b.co"),
    some (.str "18:00"), some (.str "09:00"), none, none⟩

/-- A fully valid submission with phone `(07123) 456 789`. -/
def c6cex : RawForm :=
  ⟨some (.str "AB"), some (.str "0123456789"), some (.str "a@b.co"),
    none, none, some (.str "(07123) 456 789"), none⟩

/-- A submission with non-UK phone `12345`. -/
def c6wit : RawForm :=
  ⟨some (.str "AB"), some (.str "0123456789"), some (.str "a@b.co"),
    none, none, some (.str "12345"), none⟩

/-- A one-business store for the slug theorems. -/
def c9store : List Business :=
  [⟨0, "Joe\x27s Cafe", none, none, some "joe\x27s-cafe"⟩]

/-- The store after `EditBusiness` patches the record. -/
def c9storeAfter : List Business :=
  [⟨0, "Joe\x27s Cafe", some "A nice cafe.", some "joe@cafe.co",
    some "joe\x27scafe"⟩]

/-! ### Basic lemmas about the primitives -/
theorem isWsChar_cases {c : Char} (h : isWsChar c = true) :
    c = ' ' ∨ c = '\t' ∨ c = '\n' ∨ c = '\r' ∨ c = '\x0b' ∨ c = '\x0c' := by
  simp only [isWsChar, Bool.or_eq_true, beq_iff_eq] at h
  tauto

theorem dropWhile_head_not (p : Char → Bool) (l : List Char) :
    ∀ c ∈ (l.dropWhile p).head?, p c = false := by
  induction l with
  | nil => simp [List.dropWhile]
  | cons a t ih =>
    intro c hc
    by_cases h : p a
    · rw [List.dropWhile_cons_of_pos h] at hc
      exact ih c hc
    · rw [List.dropWhile_cons_of_neg h] at hc
      simp only [List.head?_cons, Option.mem_def, Option.some.injEq] at hc
      subst hc
      simp at h
      exact h

theorem dropWhile_of_head_not {p : Char → Bool} {l : List Char}
    (h : ∀ c ∈ l.head?, p c = false) : l.dropWhile p = l := by
  cases l with
  | nil => rfl
  | cons a t =>
    have h0 : p a = false := h a (by simp)
    rw [List.dropWhile_cons_of_neg (by simp [h0])]

theorem mem_dropWhile_of_mem {p : Char → Bool} {l : List Char} {c : Char}
    (h : c ∈ l.dropWhile p) : c ∈ l := by
  induction l with
  | nil => simp [List.dropWhile] at h
  | cons a t ih =>
    by_cases hp : p a
    · rw [List.dropWhile_cons_of_pos hp] at h
      exact List.mem_cons_of_mem _ (ih h)
    · rwa [List.dropWhile_cons_of_neg hp] at h

theorem mem_trimL_of_mem {l : List Char} {c : Char} (h : c ∈ trimL l) : c ∈ l := by
  unfold trimL at h
  rw [List.mem_reverse] at h
  have h1 := mem_dropWhile_of_mem h
  rw [List.mem_reverse] at h1
  exact mem_dropWhile_of_mem h1

theorem getLast?_dropWhile (p : Char → Bool) (l : List Char)
    (hne : l.dropWhile p ≠ []) : (l.dropWhile p).getLast? = l.getLast? := by
  obtain ⟨w, hw⟩ := @List.dropWhile_suffix _ l p
  conv_rhs => rw [← hw]
  rw [List.getLast?_append_of_ne_nil _ hne]

/-- The head of the trimmed list is not whitespace. -/
theorem trimL_head_not (l : List Char) :
    ∀ c ∈ (trimL l).head?, isWsChar c = false := by
  intro c hc
  unfold trimL at hc
  by_cases hne : (l.dropWhile isWsChar).reverse.dropWhile isWsChar = []
  · rw [hne] at hc; simp at hc
  · rw [List.head?_reverse, getLast?_dropWhile isWsChar _ hne,
      List.getLast?_reverse] at hc
    exact dropWhile_head_not isWsChar l c hc

/-- The last element of the trimmed list is not whitespace. -/
theorem trimL_getLast_not (l : List Char) :
    ∀ c ∈ (trimL l).getLast?, isWsChar c = false := by
  intro c hc
  unfold trimL at hc
  rw [List.getLast?_reverse] at hc
  exact dropWhile_head_not isWsChar _ c hc

/-- Trimming a list with no whitespace at either end is the identity. -/
theorem trimL_of_ends_not {l : List Char}
    (h1 : ∀ c ∈ l.head?, isWsChar c = false)
    (h2 : ∀ c ∈ l.getLast?, isWsChar c = false) : trimL l = l := by
  unfold trimL
  rw [dropWhile_of_head_not h1, dropWhile_of_head_not (by simpa [List.head?_reverse])]
  simp

theorem trimL_idem (l : List Char) : trimL (trimL l) = trimL l :=
  trimL_of_ends_not (trimL_head_not l) (trimL_getLast_not l)

/-- Trimming a list none of whose characters is whitespace is the identity. -/
theorem trimL_of_no_ws {l : List Char} (h : ∀ c ∈ l, isWsChar c = false) :
    trimL l = l :=
  trimL_of_ends_not
    (fun c hc => h c (by cases l with
      | nil => simp at hc
      | cons a t => simp at hc; simp [hc]))
    (fun c hc => h c (List.mem_of_mem_getLast? hc))

theorem trimL_length_le (l : List Char) : (trimL l).length ≤ l.length := by
  unfold trimL
  calc ((l.dropWhile isWsChar).reverse.dropWhile isWsChar).reverse.length
      = ((l.dropWhile isWsChar).reverse.dropWhile isWsChar).length := by simp
    _ ≤ (l.dropWhile isWsChar).reverse.length := (List.dropWhile_suffix _).length_le
    _ = (l.dropWhile isWsChar).length := by simp
    _ ≤ l.length := (List.dropWhile_suffix _).length_le

theorem toLower_idem (c : Char) : Char.toLower (Char.toLower c) = Char.toLower c := by
  unfold Char.toLower
  by_cases h : c.toNat ≥ 65 ∧ c.toNat ≤ 90
  · have h2 : (Char.ofNat (c.toNat + 32)).toNat = c.toNat + 32 := by
      rw [Char.ofNat, dif_pos (Or.inl (by omega))]
      simp [Char.ofNatAux, Char.toNat, UInt32.toNat]
    simp only [if_pos h, h2]
    rw [if_neg (by omega)]
  · simp only [if_neg h]

/-! ## Lemmas about the phone matchers -/
theorem ws_not_digit {c : Char} (h : isWsChar c = true) : c.isDigit = false := by
  rcases isWsChar_cases h with h | h | h | h | h | h <;> subst h <;> decide

theorem digit_not_ws {c : Char} (h : c.isDigit = true) : isWsChar c = false := by
  by_contra hc
  rw [Bool.not_eq_false] at hc
  rw [ws_not_digit hc] at h
  exact Bool.false_ne_true h

theorem ws_not_plus {c : Char} (h : isWsChar c = true) : (c == '+') = false := by
  rcases isWsChar_cases h with h | h | h | h | h | h <;> subst h <;> decide

theorem digit_ne_char {c x : Char} (h : c.isDigit = true) (hx : x.isDigit = false) :
    (c == x) = false := by
  by_cases he : c = x
  · subst he; rw [h] at hx; exact absurd hx (by simp)
  · simpa using he

theorem skipOptWs_cases (l : List Char) :
    skipOptWs l = l ∨ ∃ w, isWsChar w = true ∧ l = w :: skipOptWs l := by
  cases l with
  | nil => left; rfl
  | cons c r =>
    by_cases h : isWsChar c
    · right; exact ⟨c, h, by simp [skipOptWs, h]⟩
    · left; simp [skipOptWs, h]

theorem skipOptChar_cases (x : Char) (l : List Char) :
    skipOptChar x l = l ∨ l = x :: skipOptChar x l := by
  cases l with
  | nil => left; rfl
  | cons c r =>
    by_cases h : c = x
    · right; subst h; simp [skipOptChar]
    · left; simp [skipOptChar, h]

theorem skipOptChar_decomp (x : Char) (l : List Char) :
    ∃ p, (p = [] ∨ p = [x]) ∧ l = p ++ skipOptChar x l := by
  cases l with
  | nil => exact ⟨[], Or.inl rfl, rfl⟩
  | cons c r =>
    by_cases h : c = x
    · subst h; exact ⟨[c], Or.inr rfl, by simp [skipOptChar]⟩
    · exact ⟨[], Or.inl rfl, by simp [skipOptChar, h]⟩

theorem skipOptWs_decomp (l : List Char) :
    ∃ p, (p = [] ∨ ∃ w, p = [w] ∧ isWsChar w = true) ∧ l = p ++ skipOptWs l := by
  cases l with
  | nil => exact ⟨[], Or.inl rfl, rfl⟩
  | cons c r =>
    by_cases h : isWsChar c
    · exact ⟨[c], Or.inr ⟨c, rfl, h⟩, by simp [skipOptWs, h]⟩
    · exact ⟨[], Or.inl rfl, by simp [skipOptWs, h]⟩

theorem dig3_spec {l r : List Char} (h : dig3 l = some r) :
    ∃ a b c, l = a :: b :: c :: r ∧ a.isDigit = true ∧ b.isDigit = true ∧
      c.isDigit = true := by
  match l with
  | [] => simp [dig3] at h
  | [_] => simp [dig3] at h
  | [_, _] => simp [dig3] at h
  | a :: b :: c :: r' =>
    simp only [dig3] at h
    split at h
    · rename_i hd
      simp only [Option.some.injEq] at h
      subst h
      simp only [Bool.and_eq_true] at hd
      exact ⟨a, b, c, rfl, hd.1.1, hd.1.2, hd.2⟩
    · simp at h

theorem seg_ws_not_digit {p : List Char}
    (hp : p = [] ∨ ∃ w, p = [w] ∧ isWsChar w = true) :
    ∀ c ∈ p, c.isDigit = false := by
  rcases hp with rfl | ⟨w, rfl, hw⟩
  · simp
  · intro c hc
    simp only [List.mem_singleton] at hc
    subst hc
    exact ws_not_digit hw

theorem seg_opt_not_digit {p : List Char} {x : Char} (hp : p = [] ∨ p = [x])
    (hx : x.isDigit = false) : ∀ c ∈ p, c.isDigit = false := by
  rcases hp with rfl | rfl
  · simp
  · intro c hc
    simp only [List.mem_singleton] at hc
    subst hc
    exact hx

theorem filter_seg_not {p : List Char} (hp : ∀ c ∈ p, Char.isDigit c = false)
    (t : List Char) :
    List.filter Char.isDigit (p ++ t) = List.filter Char.isDigit t := by
  rw [List.filter_append, List.filter_eq_nil_iff.mpr (by simpa using hp), List.nil_append]

theorem filter_digit_cons {c : Char} (h : c.isDigit = true) (t : List Char) :
    List.filter Char.isDigit (c :: t) = c :: List.filter Char.isDigit t := by
  simp [List.filter_cons, h]

/-- Decomposition of a match of the second phone alternative. -/
theorem phoneAlt2_decomp {l : List Char} (h : phoneAlt2 l = true) :
    ∃ (p1 p2 p3 p4 : List Char) (a b c d e f g h9 i : Char),
      l = p1 ++ '0' :: '7' :: a :: b :: c ::
        (p2 ++ (p3 ++ d :: e :: f :: (p4 ++ [g, h9, i]))) ∧
      (p1 = [] ∨ p1 = ['(']) ∧ (p2 = [] ∨ p2 = [')']) ∧
      (p3 = [] ∨ ∃ w, p3 = [w] ∧ isWsChar w = true) ∧
      (p4 = [] ∨ ∃ w, p4 = [w] ∧ isWsChar w = true) ∧
      a.isDigit = true ∧ b.isDigit = true ∧ c.isDigit = true ∧
      d.isDigit = true ∧ e.isDigit = true ∧ f.isDigit = true ∧
      g.isDigit = true ∧ h9.isDigit = true ∧ i.isDigit = true := by
  unfold phoneAlt2 at h
  split at h
  case h_2 => simp at h
  rename_i r heq
  split at h
  case h_2 => simp at h
  rename_i r2 heq2
  split at h
  case h_2 => simp at h
  rename_i r3 heq3
  simp only [beq_iff_eq] at h
  obtain ⟨p1, hp1, hl⟩ := skipOptChar_decomp '(' l
  rw [heq] at hl
  obtain ⟨a, b, c, hr, ha, hb, hc⟩ := dig3_spec heq2
  obtain ⟨p2, hp2, hr2⟩ := skipOptChar_decomp ')' r2
  obtain ⟨p3, hp3, hu⟩ := skipOptWs_decomp (skipOptChar ')' r2)
  obtain ⟨d, e, f, hv, hd, he, hf⟩ := dig3_spec heq3
  obtain ⟨p4, hp4, hr3⟩ := skipOptWs_decomp r3
  obtain ⟨g, h9, i, hw2, hg, hh, hi⟩ := dig3_spec h
  refine ⟨p1, p2, p3, p4, a, b, c, d, e, f, g, h9, i, ?_, hp1, hp2, hp3, hp4,
    ha, hb, hc, hd, he, hf, hg, hh, hi⟩
  rw [hl, hr, hr2, hu, hv, hr3, hw2]

/-- Decomposition of a match of the third phone alternative. -/
theorem phoneAlt3_decomp {l : List Char} (h : phoneAlt3 l = true) :
    ∃ (p3 p4 : List Char) (a b c d e f g h9 i : Char),
      l = '7' :: a :: b :: c :: (p3 ++ d :: e :: f :: (p4 ++ [g, h9, i])) ∧
      (p3 = [] ∨ ∃ w, p3 = [w] ∧ isWsChar w = true) ∧
      (p4 = [] ∨ ∃ w, p4 = [w] ∧ isWsChar w = true) ∧
      a.isDigit = true ∧ b.isDigit = true ∧ c.isDigit = true ∧
      d.isDigit = true ∧ e.isDigit = true ∧ f.isDigit = true ∧
      g.isDigit = true ∧ h9.isDigit = true ∧ i.isDigit = true := by
  unfold phoneAlt3 at h
  split at h
  case h_2 => simp at h
  rename_i r
  split at h
  case h_2 => simp at h
  rename_i r2 heq2
  split at h
  case h_2 => simp at h
  rename_i r3 heq3
  simp only [beq_iff_eq] at h
  obtain ⟨a, b, c, hr, ha, hb, hc⟩ := dig3_spec heq2
  obtain ⟨p3, hp3, hu⟩ := skipOptWs_decomp r2
  obtain ⟨d, e, f, hv, hd, he, hf⟩ := dig3_spec heq3
  obtain ⟨p4, hp4, hr3⟩ := skipOptWs_decomp r3
  obtain ⟨g, h9, i, hw2, hg, hh, hi⟩ := dig3_spec h
  refine ⟨p3, p4, a, b, c, d, e, f, g, h9, i, ?_, hp3, hp4,
    ha, hb, hc, hd, he, hf, hg, hh, hi⟩
  rw [hr, hu, hv, hr3, hw2]

/-- A match of the first phone alternative is at most 8 characters long (so
it can never pass the `.min(10)` length check). -/
theorem phoneAlt1_length {l : List Char} (h : phoneAlt1 l = true) :
    l.length ≤ 8 := by
  unfold phoneAlt1 at h
  split at h
  case h_2 => simp at h
  rename_i r
  revert h
  split
  case h_2 => simp
  intro h
  rename_i r2 heq
  simp only [beq_iff_eq] at h
  obtain ⟨x, y, z, hr2, _, _, _⟩ := dig3_spec h
  obtain ⟨p, hp, hr⟩ := skipOptWs_decomp r
  rw [heq, hr2] at hr
  have hplen : p.length ≤ 1 := by
    rcases hp with rfl | ⟨w, rfl, _⟩ <;> simp
  have hrlen : r.length ≤ 5 := by rw [hr]; simp; omega
  simp only [List.length_cons]
  omega

theorem seg_opt_mem {p : List Char} {x y : Char} (hp : p = [] ∨ p = [y])
    (hx : x ∈ p) : x = y := by
  rcases hp with rfl | rfl
  · simp at hx
  · simpa using hx

theorem seg_ws_mem {p : List Char} {x : Char}
    (hp : p = [] ∨ ∃ w, p = [w] ∧ isWsChar w = true) (hx : x ∈ p) :
    isWsChar x = true := by
  rcases hp with rfl | ⟨w, rfl, hw⟩
  · simp at hx
  · simp only [List.mem_singleton] at hx; subst hx; exact hw

/-- Digits and character classification of a match of the second
alternative. -/
theorem phoneAlt2_digits {l : List Char} (h : phoneAlt2 l = true) :
    ∃ ds, l.filter Char.isDigit = '0' :: '7' :: ds ∧ ds.length = 9 ∧
      (∀ x ∈ ds, x.isDigit = true) ∧ (∀ x ∈ l, phoneChar x) := by
  obtain ⟨p1, p2, p3, p4, a, b, c, d, e, f, g, h9, i, hl, hp1, hp2, hp3, hp4,
    ha, hb, hc, hd, he, hf, hg, hh, hi⟩ := phoneAlt2_decomp h
  refine ⟨[a, b, c, d, e, f, g, h9, i], ?_, rfl, ?_, ?_⟩
  · rw [hl]
    rw [filter_seg_not (seg_opt_not_digit hp1 (by decide))]
    rw [filter_digit_cons (by decide), filter_digit_cons (by decide),
        filter_digit_cons ha, filter_digit_cons hb, filter_digit_cons hc]
    rw [filter_seg_not (seg_opt_not_digit hp2 (by decide))]
    rw [filter_seg_not (seg_ws_not_digit hp3)]
    rw [filter_digit_cons hd, filter_digit_cons he, filter_digit_cons hf]
    rw [filter_seg_not (seg_ws_not_digit hp4)]
    rw [filter_digit_cons hg, filter_digit_cons hh, filter_digit_cons hi]
    rfl
  · intro x hx
    simp only [List.mem_cons, List.not_mem_nil, or_false] at hx
    rcases hx with rfl | rfl | rfl | rfl | rfl | rfl | rfl | rfl | rfl <;>
      assumption
  · intro x hx
    rw [hl] at hx
    simp only [List.mem_append, List.mem_cons] at hx
    rcases hx with hx | rfl | rfl | rfl | rfl | rfl | hx | hx | rfl | rfl | rfl | hx | hx
    · exact Or.inr (Or.inr (Or.inl (seg_opt_mem hp1 hx)))
    · left; decide
    · left; decide
    · exact Or.inl ha
    · exact Or.inl hb
    · exact Or.inl hc
    · exact Or.inr (Or.inr (Or.inr (seg_opt_mem hp2 hx)))
    · exact Or.inr (Or.inl (seg_ws_mem hp3 hx))
    · exact Or.inl hd
    · exact Or.inl he
    · exact Or.inl hf
    · exact Or.inr (Or.inl (seg_ws_mem hp4 hx))
    · simp only [List.mem_cons, List.not_mem_nil, or_false] at hx
      rcases hx with rfl | rfl | rfl
      · exact Or.inl hg
      · exact Or.inl hh
      · exact Or.inl hi

/-- Digits and character classification of a match of the third
alternative. -/
theorem phoneAlt3_digits {l : List Char} (h : phoneAlt3 l = true) :
    ∃ ds, l.filter Char.isDigit = '7' :: ds ∧ ds.length = 9 ∧
      (∀ x ∈ ds, x.isDigit = true) ∧ (∀ x ∈ l, phoneChar x) := by
  obtain ⟨p3, p4, a, b, c, d, e, f, g, h9, i, hl, hp3, hp4,
    ha, hb, hc, hd, he, hf, hg, hh, hi⟩ := phoneAlt3_decomp h
  refine ⟨[a, b, c, d, e, f, g, h9, i], ?_, rfl, ?_, ?_⟩
  · rw [hl]
    rw [filter_digit_cons (by decide),
        filter_digit_cons ha, filter_digit_cons hb, filter_digit_cons hc]
    rw [filter_seg_not (seg_ws_not_digit hp3)]
    rw [filter_digit_cons hd, filter_digit_cons he, filter_digit_cons hf]
    rw [filter_seg_not (seg_ws_not_digit hp4)]
    rw [filter_digit_cons hg, filter_digit_cons hh, filter_digit_cons hi]
    rfl
  · intro x hx
    simp only [List.mem_cons, List.not_mem_nil, or_false] at hx
    rcases hx with rfl | rfl | rfl | rfl | rfl | rfl | rfl | rfl | rfl <;>
      assumption
  · intro x hx
    rw [hl] at hx
    simp only [List.mem_append, List.mem_cons] at hx
    rcases hx with rfl | rfl | rfl | rfl | hx | rfl | rfl | rfl | hx | hx
    · left; decide
    · exact Or.inl ha
    · exact Or.inl hb
    · exact Or.inl hc
    · exact Or.inr (Or.inl (seg_ws_mem hp3 hx))
    · exact Or.inl hd
    · exact Or.inl he
    · exact Or.inl hf
    · exact Or.inr (Or.inl (seg_ws_mem hp4 hx))
    · simp only [List.mem_cons, List.not_mem_nil, or_false] at hx
      rcases hx with rfl | rfl | rfl
      · exact Or.inl hg
      · exact Or.inl hh
      · exact Or.inl hi

/-- Any nonempty phone accepted by the schema cleans to `07` or `7` followed
by nine digits, and contains only digits, whitespace and parentheses. -/
theorem phoneAccept_spec {s : String} (h : phoneAccept s = true) :
    (∀ x ∈ s.data, phoneChar x) ∧
    ((∃ ds, s.data.filter Char.isDigit = '0' :: '7' :: ds ∧ ds.length = 9 ∧
        ∀ x ∈ ds, x.isDigit = true) ∨
     (∃ ds, s.data.filter Char.isDigit = '7' :: ds ∧ ds.length = 9 ∧
        ∀ x ∈ ds, x.isDigit = true)) := by
  simp only [phoneAccept, phoneRegex, Bool.and_eq_true, Bool.or_eq_true,
    decide_eq_true_eq] at h
  obtain ⟨hlen, halt⟩ := h
  rcases halt with (h1 | h2) | h3
  · have := phoneAlt1_length h1
    have : s.length = s.data.length := rfl
    omega
  · obtain ⟨ds, hf, hl9, hds, hch⟩ := phoneAlt2_digits h2
    exact ⟨hch, Or.inl ⟨ds, hf, hl9, hds⟩⟩
  · obtain ⟨ds, hf, hl9, hds, hch⟩ := phoneAlt3_digits h3
    exact ⟨hch, Or.inr ⟨ds, hf, hl9, hds⟩⟩

theorem phoneChar_clean_eq {x : Char} (h : phoneChar x) :
    (x.isDigit || x == '+') = x.isDigit := by
  rcases h with h | h | rfl | rfl
  · simp [h]
  · simp [ws_not_digit h, ws_not_plus h]
  · decide
  · decide

theorem phoneChar_nwp_eq {x : Char} (h : phoneChar x) :
    (!(isWsChar x || x == '(' || x == ')')) = x.isDigit := by
  rcases h with h | h | rfl | rfl
  · simp [digit_not_ws h, digit_ne_char h (by decide : ('(').isDigit = false),
      digit_ne_char h (by decide : (')').isDigit = false), h]
  · simp [h, ws_not_digit h]
  · decide
  · decide

theorem phoneChar_not_plus {x : Char} (h : phoneChar x) : x ≠ '+' := by
  rcases h with h | h | rfl | rfl
  · intro hx; subst hx; simp at h
  · intro hx; subst hx; simp [isWsChar] at h
  · decide
  · decide

/-- For strings of phone characters, the route's cleaning step keeps exactly
the digits. -/
theorem cleanPhone_eq_filter_digit {s : String} (h : ∀ x ∈ s.data, phoneChar x) :
    cleanPhone s = s.data.filter Char.isDigit := by
  unfold cleanPhone
  exact List.filter_congr fun x hx => phoneChar_clean_eq (h x hx)

/-- For strings of phone characters, the spec's cleaning step also keeps
exactly the digits (no leading plus can occur). -/
theorem specCleanPhone_eq_filter_digit {s : String}
    (h : ∀ x ∈ s.data, phoneChar x) :
    specCleanPhone s = s.data.filter Char.isDigit := by
  unfold specCleanPhone
  split
  · rename_i r heq
    have : phoneChar '+' := h '+' (by rw [heq]; simp)
    exact absurd this (by intro hc; exact phoneChar_not_plus hc rfl)
  · rfl

/-- Every list is a whitespace prefix, its trim, and a whitespace suffix. -/
theorem trimL_decomp (l : List Char) :
    ∃ p q, (∀ c ∈ p, isWsChar c = true) ∧ (∀ c ∈ q, isWsChar c = true) ∧
      l = p ++ trimL l ++ q := by
  refine ⟨l.takeWhile isWsChar,
    ((l.dropWhile isWsChar).reverse.takeWhile isWsChar).reverse, ?_, ?_, ?_⟩
  · intro c hc; exact List.mem_takeWhile_imp hc
  · intro c hc; rw [List.mem_reverse] at hc; exact List.mem_takeWhile_imp hc
  · unfold trimL
    conv_lhs => rw [← @List.takeWhile_append_dropWhile _ isWsChar l]
    rw [List.append_assoc]
    congr 1
    calc l.dropWhile isWsChar
        = (l.dropWhile isWsChar).reverse.reverse := by simp
      _ = ((l.dropWhile isWsChar).reverse.takeWhile isWsChar ++
            (l.dropWhile isWsChar).reverse.dropWhile isWsChar).reverse := by
            rw [List.takeWhile_append_dropWhile]
      _ = ((l.dropWhile isWsChar).reverse.dropWhile isWsChar).reverse ++
            ((l.dropWhile isWsChar).reverse.takeWhile isWsChar).reverse := by
            rw [List.reverse_append]

/-- A string containing a digit does not trim to the empty string. -/
theorem jsTrim_ne_empty_of_digit {s : String}
    (hne : s.data.filter Char.isDigit ≠ []) : (jsTrim s == "") = false := by
  rw [beq_eq_false_iff_ne]
  intro he
  have hl : trimL s.data = [] := congrArg String.data he
  obtain ⟨p, q, hp, hq, hl2⟩ := trimL_decomp s.data
  rw [hl] at hl2
  apply hne
  rw [hl2, List.append_nil]
  rw [List.filter_eq_nil_iff]
  intro a ha
  rcases List.mem_append.mp ha with ha | ha
  · simp [ws_not_digit (hp a ha)]
  · simp [ws_not_digit (hq a ha)]

/-- On every phone accepted by the schema, the route formatter agrees with
the normalization the spec describes, and produces the canonical
`+44` form followed by ten digits starting with `7`. -/
theorem formatUKPhone_canonical {s : String} (h : phoneAccept s = true) :
    formatUKPhone s = specPhoneNormalize s ∧
    ∃ ds, formatUKPhone s = ⟨'+' :: '4' :: '4' :: '7' :: ds⟩ ∧ ds.length = 9 ∧
      (∀ x ∈ ds, x.isDigit = true) := by
  obtain ⟨hch, hcase⟩ := phoneAccept_spec h
  have hclean : cleanPhone s = s.data.filter Char.isDigit :=
    cleanPhone_eq_filter_digit hch
  have hspec : specCleanPhone s = s.data.filter Char.isDigit :=
    specCleanPhone_eq_filter_digit hch
  rcases hcase with ⟨ds, hf, hl9, hds⟩ | ⟨ds, hf, hl9, hds⟩
  · have htrim : (jsTrim s == "") = false :=
      jsTrim_ne_empty_of_digit (by rw [hf]; simp)
    have hc : cleanPhone s = '0' :: '7' :: ds := by rw [hclean, hf]
    have hs : specCleanPhone s = '0' :: '7' :: ds := by rw [hspec, hf]
    constructor
    · simp only [formatUKPhone, specPhoneNormalize, htrim, hc, hs]
      simp [leadsWith]
    · refine ⟨ds, ?_, hl9, hds⟩
      simp only [formatUKPhone, htrim, hc]
      simp [leadsWith]
  · have htrim : (jsTrim s == "") = false :=
      jsTrim_ne_empty_of_digit (by rw [hf]; simp)
    have hc : cleanPhone s = '7' :: ds := by rw [hclean, hf]
    have hs : specCleanPhone s = '7' :: ds := by rw [hspec, hf]
    constructor
    · simp only [formatUKPhone, specPhoneNormalize, htrim, hc, hs]
      simp [leadsWith, hl9]
    · refine ⟨ds, ?_, hl9, hds⟩
      simp only [formatUKPhone, htrim, hc]
      simp [leadsWith, hl9]

/-- Every nonempty phone accepted by the schema fits the amended claim
pattern (spaces and parentheses stripped, one of the three digit shapes). -/
theorem phoneAccept_claimPatternParen {s : String} (h : phoneAccept s = true) :
    claimUKPatternParen s = true := by
  obtain ⟨hch, hcase⟩ := phoneAccept_spec h
  have hfe : s.data.filter (fun c => !(isWsChar c || c == '(' || c == ')')) =
      s.data.filter Char.isDigit :=
    List.filter_congr fun x hx => phoneChar_nwp_eq (hch x hx)
  unfold claimUKPatternParen
  rw [hfe]
  rcases hcase with ⟨ds, hf, hl9, hds⟩ | ⟨ds, hf, hl9, hds⟩ <;> rw [hf]
  · simp [ukShape, hl9, List.all_eq_true]
    exact hds
  · simp [ukShape, hl9, List.all_eq_true]
    exact hds

/-! ### Lemmas connecting the field checks to `validate` -/
theorem entryOf_eq_nil {f : Field} {e : Option String} (h : e = none) :
    entryOf f e = [] := by rw [h]; rfl

theorem validate_error_eq {r : RawForm} (hne : fieldErrors r ≠ []) :
    validate r = .error (fieldErrors r) := by
  unfold validate
  split
  · rename_i heq; exact absurd heq hne
  · rfl

theorem validate_ok_eq {r : RawForm} (h : fieldErrors r = []) :
    validate r = .ok
      ({ schemaTransform r with phone := formatUKPhone (schemaTransform r).phone },
        timeWarning (schemaTransform r).openingTime (schemaTransform r).closingTime) := by
  unfold validate
  rw [h]

/-- `phoneCheckMsg` succeeds exactly on schema-accepted phones. -/
theorem phoneCheckMsg_none_iff {s : String} :
    phoneCheckMsg s = none ↔ phoneAccept s = true := by
  unfold phoneCheckMsg phoneAccept
  rcases Nat.lt_or_ge s.length 10 with h | h
  · rw [if_pos h]
    simp [Nat.not_le.mpr h]
  · rw [if_neg (by omega)]
    by_cases hr : phoneRegex s
    · simp [hr, h]
    · simp [hr]

/-! ### Trim and email lemmas for re-validation -/
theorem emailLocalChar_not_ws {c : Char} (h : emailLocalChar c = true) :
    isWsChar c = false := by
  by_contra hc
  rw [Bool.not_eq_false] at hc
  rcases isWsChar_cases hc with rfl | rfl | rfl | rfl | rfl | rfl <;>
    exact absurd h (by decide)

theorem emailDomainChar_not_ws {c : Char} (h : emailDomainChar c = true) :
    isWsChar c = false := by
  by_contra hc
  rw [Bool.not_eq_false] at hc
  rcases isWsChar_cases hc with rfl | rfl | rfl | rfl | rfl | rfl <;>
    exact absurd h (by decide)

theorem emailLocalOk_all {l : List Char} (h : emailLocalOk l = true) :
    ∀ c ∈ l, emailLocalChar c = true := by
  unfold emailLocalOk at h
  simp only [Bool.and_eq_true] at h
  exact fun c hc => List.all_eq_true.mp h.1.1.1.2 c hc

theorem emailDomainOk_all {l : List Char} (h : emailDomainOk l = true) :
    ∀ c ∈ l, emailDomainChar c = true := by
  unfold emailDomainOk at h
  simp only [Bool.and_eq_true] at h
  exact fun c hc => List.all_eq_true.mp h.1 c hc

/-- A Zod-valid email contains no whitespace at all. -/
theorem emailOk_no_ws {s : String} (h : emailOk s = true) :
    ∀ c ∈ s.data, isWsChar c = false := by
  unfold emailOk at h
  split at h
  case h_2 => simp at h
  rename_i dp heq
  simp only [Bool.and_eq_true] at h
  obtain ⟨⟨hlp, hdp⟩, _⟩ := h
  intro c hc
  rw [← @List.takeWhile_append_dropWhile _ (fun c => !(c == '@')) s.data,
    heq] at hc
  rcases List.mem_append.mp hc with hc | hc
  · exact emailLocalChar_not_ws (emailLocalOk_all hlp c hc)
  · rcases List.mem_cons.mp hc with rfl | hc
    · decide
    · exact emailDomainChar_not_ws (emailDomainOk_all hdp c hc)

/-- Trimming a string without whitespace is the identity. -/
theorem jsTrim_of_no_ws {s : String} (h : ∀ c ∈ s.data, isWsChar c = false) :
    jsTrim s = s := by
  unfold jsTrim
  rw [trimL_of_no_ws h]

theorem jsTrim_idem (s : String) : jsTrim (jsTrim s) = jsTrim s :=
  congrArg String.mk (trimL_idem s.data)

theorem jsTrim_length (s : String) : (jsTrim s).length ≤ s.length :=
  trimL_length_le s.data

/-- A name passing the schema checks passes them again after trimming. -/
theorem nameCheckMsg_trim {s : String} (h : nameCheckMsg s = none) :
    nameCheckMsg (jsTrim s) = none := by
  unfold nameCheckMsg at h ⊢
  split_ifs at h with h1 h2 h3 h4
  have hle := jsTrim_length s
  rw [jsTrim_idem]
  rw [if_neg (by omega), if_neg (by omega), if_neg (by omega), if_neg (by omega)]

/-- A description passing the schema checks passes them again after
trimming. -/
theorem descriptionCheckMsg_trim {s : String} (h : descriptionCheckMsg s = none) :
    descriptionCheckMsg (jsTrim s) = none := by
  unfold descriptionCheckMsg at h ⊢
  split_ifs at h with h1 h2 h3 h4
  have hle := jsTrim_length s
  rw [jsTrim_idem]
  rw [if_neg (by omega), if_neg (by omega), if_neg (by omega), if_neg (by omega)]

/-- A valid email is unchanged by trimming. -/
theorem emailCheckMsg_fixed {s : String} (h : emailCheckMsg s = none) :
    jsTrim s = s := by
  unfold emailCheckMsg at h
  split_ifs at h with h1 h2
  have h3 : emailOk s = true := by simpa using h2
  exact jsTrim_of_no_ws (emailOk_no_ws h3)

/-! ### Extracting field facts from an error-free validation -/
theorem entryOf_nil {f : Field} {e : Option String} (h : entryOf f e = []) :
    e = none := by
  cases e with
  | none => rfl
  | some m => simp [entryOf] at h

theorem reqFieldErr_none_cases {check : String → Option String} {v : Option Json}
    (h : reqFieldErr check v = none) :
    ∃ s, v = some (.str s) ∧ check s = none := by
  match v with
  | none => simp [reqFieldErr] at h
  | some (.str s) => exact ⟨s, rfl, h⟩
  | some .null | some (.bool _) | some (.num _) | some (.arr _) | some (.obj _) =>
    simp [reqFieldErr] at h

theorem optFieldErr_none_cases {check : String → Option String} {v : Option Json}
    (h : optFieldErr check v = none) :
    v = none ∨ ∃ s, v = some (.str s) ∧ (s = "" ∨ check s = none) := by
  match v with
  | none => exact Or.inl rfl
  | some (.str s) =>
    refine Or.inr ⟨s, rfl, ?_⟩
    by_cases he : s = ""
    · exact Or.inl he
    · right
      simp only [optFieldErr] at h
      rwa [if_neg (by simpa using he)] at h
  | some .null | some (.bool _) | some (.num _) | some (.arr _) | some (.obj _) =>
    simp [optFieldErr] at h

theorem fieldErrors_nil_parts {r : RawForm} (h : fieldErrors r = []) :
    reqFieldErr nameCheckMsg r.name = none ∧
    reqFieldErr descriptionCheckMsg r.description = none ∧
    reqFieldErr emailCheckMsg r.email = none ∧
    optFieldErr timeCheckMsg r.openingTime = none ∧
    optFieldErr timeCheckMsg r.closingTime = none ∧
    optFieldErr phoneCheckMsg r.phone = none ∧
    optFieldErr websiteCheckMsg r.website = none := by
  unfold fieldErrors at h
  simp only [List.append_eq_nil] at h
  obtain ⟨⟨⟨⟨⟨⟨h1, h2⟩, h3⟩, h4⟩, h5⟩, h6⟩, h7⟩ := h
  exact ⟨entryOf_nil h1, entryOf_nil h2, entryOf_nil h3, entryOf_nil h4,
    entryOf_nil h5, entryOf_nil h6, entryOf_nil h7⟩

theorem strOpt_map_str (v : Option Json) :
    strOpt ((strOpt v).map Json.str) = strOpt v := by
  match v with
  | none => rfl
  | some (.str s) => rfl
  | some .null | some (.bool _) | some (.num _) | some (.arr _) | some (.obj _) =>
    rfl

theorem optFieldErr_strOpt {check : String → Option String} {v : Option Json}
    (h : optFieldErr check v = none) :
    optFieldErr check ((strOpt v).map Json.str) = none := by
  rcases optFieldErr_none_cases h with rfl | ⟨s, rfl, _⟩
  · rfl
  · simpa [strOpt] using h

theorem formatUKPhone_empty : formatUKPhone "" = "" := by decide

/-- Validation of an error-free record with empty/absent phone and website,
and re-validation of its normalized output, both succeed with the same
output record and the same warning. -/
theorem revalidate_stable {r : RawForm}
    (hok : fieldErrors r = [])
    (hphone : r.phone = none ∨ r.phone = some (.str ""))
    (hweb : r.website = none ∨ r.website = some (.str "")) :
    ∃ out w, validate r = .ok (out, w) ∧ validate (toRawForm out) = .ok (out, w) := by
  obtain ⟨hn, hd, he, hto, htc, hp, hw⟩ := fieldErrors_nil_parts hok
  obtain ⟨sn, hsn, hnc⟩ := reqFieldErr_none_cases hn
  obtain ⟨sd, hsd, hdc⟩ := reqFieldErr_none_cases hd
  obtain ⟨se, hse, hec⟩ := reqFieldErr_none_cases he
  have hpe : strOrEmpty r.phone = "" := by
    rcases hphone with h | h <;> simp [h, strOrEmpty]
  have hwe : strOrEmpty r.website = "" := by
    rcases hweb with h | h <;> simp [h, strOrEmpty]
  have hfix : jsTrim se = se := emailCheckMsg_fixed hec
  -- the normalized output record
  refine ⟨{ name := jsTrim sn, description := jsTrim sd, email := se,
            phone := "", website := "",
            openingTime := strOpt r.openingTime,
            closingTime := strOpt r.closingTime },
          timeWarning (strOpt r.openingTime) (strOpt r.closingTime), ?_, ?_⟩
  · rw [validate_ok_eq hok]
    have ht : schemaTransform r =
        { name := jsTrim sn, description := jsTrim sd, email := se,
          phone := "", website := "",
          openingTime := strOpt r.openingTime,
          closingTime := strOpt r.closingTime } := by
      unfold schemaTransform
      rw [hsn, hsd, hse, hpe, hwe]
      simp [strOrEmpty, hfix]
      rfl
    rw [ht]
    simp [formatUKPhone_empty]
  · have hok2 : fieldErrors (toRawForm
        { name := jsTrim sn, description := jsTrim sd, email := se,
          phone := "", website := "",
          openingTime := strOpt r.openingTime,
          closingTime := strOpt r.closingTime }) = [] := by
      unfold fieldErrors toRawForm
      have e1 : reqFieldErr nameCheckMsg (some (.str (jsTrim sn))) = none :=
        nameCheckMsg_trim hnc
      have e2 : reqFieldErr descriptionCheckMsg (some (.str (jsTrim sd))) = none :=
        descriptionCheckMsg_trim hdc
      have e3 : reqFieldErr emailCheckMsg (some (.str se)) = none := hec
      have e4 := optFieldErr_strOpt hto
      have e5 := optFieldErr_strOpt htc
      simp only [e1, e2, e3, e4, e5]
      rfl
    rw [validate_ok_eq hok2]
    have ht2 : schemaTransform (toRawForm
        { name := jsTrim sn, description := jsTrim sd, email := se,
          phone := "", website := "",
          openingTime := strOpt r.openingTime,
          closingTime := strOpt r.closingTime }) =
        { name := jsTrim sn, description := jsTrim sd, email := se,
          phone := "", website := "",
          openingTime := strOpt r.openingTime,
          closingTime := strOpt r.closingTime } := by
      unfold schemaTransform toRawForm
      simp only [strOrEmpty, strOpt_map_str]
      simp [jsTrim_idem, hfix]
      rfl
    rw [ht2]
    simp [formatUKPhone_empty]

/-- A failing phone check puts a phone entry into the error map. -/
theorem phoneF_mem_fieldErrors {r : RawForm} {m : String}
    (h : optFieldErr phoneCheckMsg r.phone = some m) :
    (Field.phoneF, m) ∈ fieldErrors r := by
  unfold fieldErrors
  rw [h]
  simp [entryOf]

/-- With every provided field individually valid, the error map consists of
exactly one `Required` entry per missing required field, in schema order. -/
theorem validate_missing_required {r : RawForm}
    (hm : missingRequired r ≠ [])
    (hn : r.name = none ∨ reqFieldErr nameCheckMsg r.name = none)
    (hd : r.description = none ∨ reqFieldErr descriptionCheckMsg r.description = none)
    (he : r.email = none ∨ reqFieldErr emailCheckMsg r.email = none)
    (ho : optFieldErr timeCheckMsg r.openingTime = none)
    (hc : optFieldErr timeCheckMsg r.closingTime = none)
    (hp : optFieldErr phoneCheckMsg r.phone = none)
    (hw : optFieldErr websiteCheckMsg r.website = none) :
    validate r = .error (fieldErrors r) ∧
    (fieldErrors r).map Prod.fst = missingRequired r := by
  have eN : entryOf .nameF (reqFieldErr nameCheckMsg r.name) =
      if r.name.isNone then [(Field.nameF, "Required")] else [] := by
    rcases hn with h | h
    · rw [h]; rfl
    · obtain ⟨s, hs, _⟩ := reqFieldErr_none_cases h
      rw [h, hs]; rfl
  have eD : entryOf .descriptionF (reqFieldErr descriptionCheckMsg r.description) =
      if r.description.isNone then [(Field.descriptionF, "Required")] else [] := by
    rcases hd with h | h
    · rw [h]; rfl
    · obtain ⟨s, hs, _⟩ := reqFieldErr_none_cases h
      rw [h, hs]; rfl
  have eE : entryOf .emailF (reqFieldErr emailCheckMsg r.email) =
      if r.email.isNone then [(Field.emailF, "Required")] else [] := by
    rcases he with h | h
    · rw [h]; rfl
    · obtain ⟨s, hs, _⟩ := reqFieldErr_none_cases h
      rw [h, hs]; rfl
  have hfe : fieldErrors r =
      (if r.name.isNone then [(Field.nameF, "Required")] else []) ++
      (if r.description.isNone then [(Field.descriptionF, "Required")] else []) ++
      (if r.email.isNone then [(Field.emailF, "Required")] else []) := by
    unfold fieldErrors
    rw [eN, eD, eE, entryOf_eq_nil ho, entryOf_eq_nil hc, entryOf_eq_nil hp,
      entryOf_eq_nil hw]
    simp
  have hmap : (fieldErrors r).map Prod.fst = missingRequired r := by
    rw [hfe]
    unfold missingRequired
    simp [List.map_append, apply_ite (List.map (Prod.fst (α := Field) (β := String)))]
  have hne : fieldErrors r ≠ [] := by
    intro h0
    rw [h0] at hmap
    exact hm hmap.symm
  exact ⟨validate_error_eq hne, hmap⟩

/-- An error-free record with both times present, nonempty and with opening
not earlier than closing validates successfully with the warning attached. -/
theorem validate_warning {r : RawForm} {t1 t2 : String}
    (hok : fieldErrors r = [])
    (ho : r.openingTime = some (.str t1)) (hc : r.closingTime = some (.str t2))
    (h1 : t1 ≠ "") (h2 : t2 ≠ "")
    (hge : timeToMinutes t2 ≤ timeToMinutes t1) :
    ∃ out, validate r = .ok (out, timeWarningMsg) := by
  have hred : timeWarning (some t1) (some t2) =
      if (t1 == "" || t2 == "") = true then ""
      else if timeToMinutes t2 ≤ timeToMinutes t1 then timeWarningMsg else "" := rfl
  have hwarn : timeWarning (schemaTransform r).openingTime
      (schemaTransform r).closingTime = timeWarningMsg := by
    have hopen : (schemaTransform r).openingTime = some t1 := by
      show strOpt r.openingTime = some t1
      rw [ho]
      rfl
    have hclose : (schemaTransform r).closingTime = some t2 := by
      show strOpt r.closingTime = some t2
      rw [hc]
      rfl
    rw [hopen, hclose, hred, if_neg (by simp [h1, h2]), if_pos hge]
  exact ⟨{ schemaTransform r with phone := formatUKPhone (schemaTransform r).phone },
    by rw [validate_ok_eq hok, hwarn]⟩

/-! ### The website strip law (form component) -/

/-- Stripping the scheme and a leading `www.` yields the bare domain. -/
theorem submitDataWebsite_strip (d : String)
    (htrim : jsTrim ("https://www." ++ d) = "https://www." ++ d) :
    submitDataWebsite (some ("https://www." ++ d)) = d := by
  have c0 : (("https://www." ++ d) == "") = false := rfl
  have h1 : submitDataWebsite (some ("https://www." ++ d)) =
      if (("https://www." ++ d) == "") = true then ""
      else stripWww (stripScheme (jsTrim ("https://www." ++ d))) := rfl
  rw [h1, c0, if_neg (by simp), htrim]
  rfl

/-! ### Waitlist lemmas -/
theorem filter_email_unique {l : List WaitlistEntry}
    (hwf : l.Pairwise (fun a b => a.email ≠ b.email))
    {ent : WaitlistEntry} (hmem : ent ∈ l) {key : String}
    (hkey : ent.email = key) :
    (l.filter (fun x => x.email == key)).length = 1 := by
  induction l with
  | nil => simp at hmem
  | cons a t ih =>
    rw [List.pairwise_cons] at hwf
    rcases List.mem_cons.mp hmem with rfl | hmem2
    · rw [List.filter_cons_of_pos (by simp [hkey])]
      have ht : t.filter (fun x => x.email == key) = [] := by
        rw [List.filter_eq_nil_iff]
        intro x hx
        have := hwf.1 x hx
        simp only [beq_iff_eq]
        rw [← hkey]
        exact fun hc => this hc.symm
      rw [ht]
      rfl
    · have hane : a.email ≠ key := by
        rw [← hkey]
        exact hwf.1 ent hmem2
      rw [List.filter_cons_of_neg (by simp [hane])]
      exact ih hwf.2 hmem2

/-! ### Slug lemmas -/
theorem mem_collapseWsAux {b : Bool} {l : List Char} {c : Char}
    (h : c ∈ collapseWsAux b l) : c = '-' ∨ c ∈ l := by
  induction l generalizing b with
  | nil => simp [collapseWsAux] at h
  | cons a t ih =>
    unfold collapseWsAux at h
    by_cases hw : isWsChar a
    · rw [if_pos hw] at h
      by_cases hb : b
      · subst hb
        rw [if_pos rfl] at h
        rcases ih h with h | h
        · exact Or.inl h
        · exact Or.inr (List.mem_cons_of_mem _ h)
      · rw [if_neg (by simpa using hb)] at h
        rcases List.mem_cons.mp h with rfl | h
        · exact Or.inl rfl
        · rcases ih h with h | h
          · exact Or.inl h
          · exact Or.inr (List.mem_cons_of_mem _ h)
    · rw [if_neg hw] at h
      rcases List.mem_cons.mp h with rfl | h
      · exact Or.inr (List.mem_cons.mpr (Or.inl rfl))
      · rcases ih h with h | h
        · exact Or.inl h
        · exact Or.inr (List.mem_cons_of_mem _ h)

theorem collapseWsAux_no_ws {b : Bool} {l : List Char} :
    ∀ c ∈ collapseWsAux b l, isWsChar c = false := by
  intro c h
  induction l generalizing b with
  | nil => simp [collapseWsAux] at h
  | cons a t ih =>
    unfold collapseWsAux at h
    by_cases hw : isWsChar a
    · rw [if_pos hw] at h
      by_cases hb : b
      · subst hb; rw [if_pos rfl] at h; exact ih h
      · rw [if_neg (by simpa using hb)] at h
        rcases List.mem_cons.mp h with rfl | h
        · decide
        · exact ih h
    · rw [if_neg hw] at h
      rcases List.mem_cons.mp h with rfl | h
      · simpa using hw
      · exact ih h

theorem collapseWsAux_of_no_ws {l : List Char} (h : ∀ c ∈ l, isWsChar c = false) :
    ∀ b, collapseWsAux b l = l := by
  induction l with
  | nil => intro b; rfl
  | cons a t ih =>
    intro b
    unfold collapseWsAux
    rw [if_neg (by simp [h a (by simp)])]
    rw [ih (fun c hc => h c (List.mem_cons_of_mem _ hc)) false]

theorem map_id_of_fixed {f : Char → Char} {l : List Char}
    (h : ∀ c ∈ l, f c = c) : l.map f = l := by
  induction l with
  | nil => rfl
  | cons a t ih =>
    rw [List.map_cons, h a (by simp), ih (fun c hc => h c (List.mem_cons_of_mem _ hc))]

/-- Every character of a slug is a hyphen or a lowered character. -/
theorem slugify_chars {s : String} {c : Char} (h : c ∈ (slugify s).data) :
    Char.toLower c = c := by
  unfold slugify at h
  rcases mem_collapseWsAux h with rfl | h
  · decide
  · unfold jsToLower at h
    simp only [List.mem_map] at h
    obtain ⟨a, _, rfl⟩ := h
    exact toLower_idem a

theorem slugify_no_ws {s : String} : ∀ c ∈ (slugify s).data, isWsChar c = false :=
  fun c h => collapseWsAux_no_ws c h

theorem slugify_idem (s : String) : slugify (slugify s) = slugify s := by
  have h1 : jsTrim (slugify s) = slugify s := jsTrim_of_no_ws slugify_no_ws
  have h2 : jsToLower (slugify s) = slugify s := by
    unfold jsToLower
    rw [map_id_of_fixed fun c hc => slugify_chars hc]
  show String.mk (collapseWsAux false (jsToLower (jsTrim (slugify s))).data) =
    slugify s
  rw [h1, h2, collapseWsAux_of_no_ws slugify_no_ws false]

/-- The stored slug contains neither hyphens nor whitespace. -/
theorem removeHyphens_slugify_no_sep (name : String) :
    ∀ c ∈ (removeHyphens (slugify name)).data, (c == '-') = false ∧
      isWsChar c = false := by
  intro c hc
  unfold removeHyphens at hc
  rw [show (String.mk ((slugify name).data.filter (fun c => !(c == '-')))).data =
    (slugify name).data.filter (fun c => !(c == '-')) from rfl] at hc
  obtain ⟨hmem, hpred⟩ := List.mem_filter.mp hc
  exact ⟨by simpa using hpred, slugify_no_ws c hmem⟩

/-! ### The `updateBusiness` lookup lemmas -/
theorem updateBusiness_not_found {st : List Business} {args : UpdateBusinessArgs}
    (hslug : ∀ b ∈ st, ∀ s, desiredSlugOf args = some s → b.slug ≠ some s)
    (hname : ∀ b ∈ st, ∀ n, args.name = some n → n ≠ "" → b.name ≠ n) :
    updateBusiness st args = .error "Business not found" := by
  have h1 : existingBySlugOf st args = none := by
    unfold existingBySlugOf
    split
    · rename_i s hd
      rw [List.find?_eq_none]
      intro b hb
      simp only [beq_iff_eq]
      exact hslug b hb s hd
    · rfl
  have h2 : existingByNameOf st args = none := by
    unfold existingByNameOf
    split
    · rename_i n hn
      by_cases he : n = ""
      · subst he; simp
      · rw [if_neg (by simpa using he), List.find?_eq_none]
        intro b hb
        simp only [beq_iff_eq]
        exact hname b hb n hn he
    · rfl
  unfold updateBusiness
  rw [h1, h2]
  rfl

/-- A successful `updateBusiness` call whose slug argument was derived from
the name stores the hyphen-stripped slug on the patched record. -/
theorem updateBusiness_stored_slug {st st' : List Business}
    {args : UpdateBusinessArgs} {name : String}
    (hargsn : args.name = some name)
    (hargss : args.slug = some (slugify name))
    (hne : slugify name ≠ "")
    (h : updateBusiness st args = .ok st') :
    ∃ b ∈ st', b.slug = some (removeHyphens (slugify name)) ∧ b.name = name := by
  have hdes : desiredSlugOf args = some (slugify name) := by
    unfold desiredSlugOf
    rw [hargss]
    show (if (slugify name == "") = true then none
      else some (slugify (slugify name))) = some (slugify name)
    rw [if_neg (by simpa using hne), slugify_idem]
  unfold updateBusiness at h
  split at h
  · simp at h
  rename_i target heq
  split at h
  · simp at h
  rename_i n2 heqn
  rw [hargsn] at heqn
  have hn : n2 = name := by injection heqn.symm
  subst hn
  simp only [Except.ok.injEq] at h
  have hnorm : normalizedSlugOf args target = some (removeHyphens (slugify n2)) := by
    unfold normalizedSlugOf
    rw [hdes]
    show (if (slugify n2 == "") = true then none
      else some (removeHyphens (slugify n2))) = _
    rw [if_neg (by simpa using hne)]
  have hmem : target ∈ st := by
    rcases Option.or_eq_some.mp heq with hs | ⟨_, hs⟩
    · unfold existingBySlugOf at hs
      rw [hdes] at hs
      exact List.mem_of_find?_eq_some hs
    · unfold existingByNameOf at hs
      split at hs
      · rename_i n3 hn3
        by_cases he : n3 = ""
        · rw [if_pos (by simpa using he)] at hs; simp at hs
        · rw [if_neg (by simpa using he)] at hs
          exact List.mem_of_find?_eq_some hs
      · simp at hs
  have himg : (fun b => if b.id == target.id then
        { b with
          name := n2
          description := args.description
          email := args.email
          slug := normalizedSlugOf args target }
      else b) target =
      { target with
        name := n2
        description := args.description
        email := args.email
        slug := some (removeHyphens (slugify n2)) } := by
    simp [hnorm]
  refine ⟨{ target with
      name := n2
      description := args.description
      email := args.email
      slug := some (removeHyphens (slugify n2)) }, ?_, rfl, rfl⟩
  rw [← h, ← himg]
  exact List.mem_map_of_mem _ hmem

/-- A repeated `addEmail` with the same normalized email returns the very
same store and id as the first call, and exactly one matching entry exists. -/
theorem addEmail_repeat {st : WaitlistStore} {e1 e2 : String}
    {n1 p1 n2 p2 : Option String}
    (hwf : emailUnique st)
    (heq : normalizeEmail e2 = normalizeEmail e1) :
    addEmail (addEmail st e1 n1 p1).1 e2 n2 p2 =
      ((addEmail st e1 n1 p1).1, (addEmail st e1 n1 p1).2) ∧
    ((addEmail st e1 n1 p1).1.entries.filter
        (fun x => x.email == normalizeEmail e1)).length = 1 := by
  cases hfind : st.entries.find? (fun x => x.email == normalizeEmail e1) with
  | some ent =>
    have h1 : addEmail st e1 n1 p1 = (st, ent.id) := by
      unfold addEmail
      rw [hfind]
    have hent := List.find?_some hfind
    have hentmem := List.mem_of_find?_eq_some hfind
    have h2 : addEmail st e2 n2 p2 = (st, ent.id) := by
      unfold addEmail
      rw [heq, hfind]
    constructor
    · rw [h1]
      exact h2
    · rw [h1]
      exact filter_email_unique hwf hentmem (by simpa using hent)
  | none =>
    have h1 : addEmail st e1 n1 p1 =
        (⟨st.entries ++ [⟨st.nextId, normalizeEmail e1, n1, p1⟩],
          st.nextId + 1⟩, st.nextId) := by
      unfold addEmail
      rw [hfind]
    have hfilter : st.entries.filter (fun x => x.email == normalizeEmail e1) = [] := by
      rw [List.filter_eq_nil_iff]
      intro x hx
      simpa using List.find?_eq_none.mp hfind x hx
    have hfind2 : (st.entries ++
        ([⟨st.nextId, normalizeEmail e1, n1, p1⟩] : List WaitlistEntry)).find?
          (fun x => x.email == normalizeEmail e1) =
        some ⟨st.nextId, normalizeEmail e1, n1, p1⟩ := by
      rw [List.find?_append, hfind]
      simp [List.find?]
    have h2 : addEmail
        ⟨st.entries ++ [⟨st.nextId, normalizeEmail e1, n1, p1⟩],
          st.nextId + 1⟩ e2 n2 p2 =
        (⟨st.entries ++ [⟨st.nextId, normalizeEmail e1, n1, p1⟩],
          st.nextId + 1⟩, st.nextId) := by
      unfold addEmail
      rw [heq]
      rw [show (⟨st.entries ++ [⟨st.nextId, normalizeEmail e1, n1, p1⟩],
        st.nextId + 1⟩ : WaitlistStore).entries =
        st.entries ++ [⟨st.nextId, normalizeEmail e1, n1, p1⟩] from rfl]
      rw [hfind2]
    constructor
    · rw [h1]
      exact h2
    · rw [h1]
      show ((st.entries ++
          ([⟨st.nextId, normalizeEmail e1, n1, p1⟩] : List WaitlistEntry)).filter
        (fun x => x.email == normalizeEmail e1)).length = 1
      rw [List.filter_append, hfilter]
      simp

/-- Stripping the scheme alone: an `http://` input loses the scheme and then
one leading `www.` (if any). -/
theorem submitDataWebsite_strip_http (d : String)
    (htrim : jsTrim ("http://" ++ d) = "http://" ++ d) :
    submitDataWebsite (some ("http://" ++ d)) = stripWww d := by
  have c0 : (("http://" ++ d) == "") = false := rfl
  have h1 : submitDataWebsite (some ("http://" ++ d)) =
      if (("http://" ++ d) == "") = true then ""
      else stripWww (stripScheme (jsTrim ("http://" ++ d))) := rfl
  rw [h1, c0, if_neg (by simp), htrim]
  rfl

/-! ## Claim theorems -/

/-- **C1, counterexample.** The claim says that for an input missing a
required field, with all other provided fields arbitrary, the error map
keys are exactly the missing fields.  For the record missing `name` whose
`openingTime` is the invalid `99:99`, validation fails but the error map
has keys `name` *and* `openingTime`, not exactly the missing `[name]`. -/
theorem submission_missing_required_counterexample :
    missingRequired c1cex = [Field.nameF] ∧
    (validate c1cex).isOk = false ∧
    (fieldErrors c1cex).map Prod.fst = [Field.nameF, Field.openingTimeF] ∧
    (fieldErrors c1cex).map Prod.fst ≠ missingRequired c1cex := by decide

/-- **C1 (amended).** For every input record missing at least one of the
required fields `name`, `description`, `email`, with every *other provided
field individually valid*, validation fails and the error map contains
exactly the missing fields as keys, one entry per missing field (in schema
order).  (With arbitrary provided fields, the missing fields are still
among the keys, but invalid provided fields add their own keys.) -/
theorem submission_missing_required_fields (r : RawForm)
    (hm : missingRequired r ≠ [])
    (hn : r.name = none ∨ reqFieldErr nameCheckMsg r.name = none)
    (hd : r.description = none ∨ reqFieldErr descriptionCheckMsg r.description = none)
    (he : r.email = none ∨ reqFieldErr emailCheckMsg r.email = none)
    (ho : optFieldErr timeCheckMsg r.openingTime = none)
    (hc : optFieldErr timeCheckMsg r.closingTime = none)
    (hp : optFieldErr phoneCheckMsg r.phone = none)
    (hw : optFieldErr websiteCheckMsg r.website = none) :
    ∃ errs, validate r = .error errs ∧ errs.map Prod.fst = missingRequired r :=
  ⟨fieldErrors r, (validate_missing_required hm hn hd he ho hc hp hw).1,
    (validate_missing_required hm hn hd he ho hc hp hw).2⟩

/-- **C1 witness.** The amended claim at the record missing only `name`. -/
theorem submission_missing_required_fields_witness :
    ∃ errs, validate c1wit = .error errs ∧
      errs.map Prod.fst = missingRequired c1wit :=
  submission_missing_required_fields c1wit (by decide)
    (Or.inl rfl) (Or.inr (by decide)) (Or.inr (by decide))
    (by decide) (by decide) (by decide) (by decide)

/-- **C2, counterexample.** The claim says re-validating the normalized
output always succeeds, in particular for the normalized phone form
`+44XXXXXXXXXX`.  The fully valid submission `c2cex` (phone
`07123 456789`) validates successfully and its normalized phone is
`+447123456789`, but feeding the normalized output back through `validate`
fails: the canonical `+44` form does not match the schema phone pattern. -/
theorem normalization_idempotent_counterexample :
    (validate c2cex).isOk = true ∧
    validatedPhone c2cex = "+447123456789" ∧
    revalidateOk c2cex = false := by decide

/-- **C2 (amended).** For every input where all fields pass the schema
checks and whose phone and website are absent or empty, validation
succeeds, and re-validating the normalized output succeeds again with the
identical record and warning (idempotence).  With a nonempty phone the
normalized `+44XXXXXXXXXX` form is itself rejected on re-validation, and a
nonempty website can be re-stripped, so idempotence fails in general. -/
theorem normalization_idempotent_restricted (r : RawForm)
    (hok : fieldErrors r = [])
    (hphone : r.phone = none ∨ r.phone = some (.str ""))
    (hweb : r.website = none ∨ r.website = some (.str "")) :
    ∃ out w, validate r = .ok (out, w) ∧ validate (toRawForm out) = .ok (out, w) :=
  revalidate_stable hok hphone hweb

/-- **C2 witness.** The amended claim at a concrete valid record. -/
theorem normalization_idempotent_restricted_witness :
    ∃ out w, validate c2wit = .ok (out, w) ∧
      validate (toRawForm out) = .ok (out, w) :=
  normalization_idempotent_restricted c2wit (by decide) (Or.inl rfl) (Or.inl rfl)

/-- **C3.** On every phone the schema accepts, the route formatter
`formatUKPhone` implements exactly the normalization the spec describes
(strip to digits and a leading plus, then the three `+44` mapping rules,
else pass the cleaned digits through), and its result is the canonical
`+44` followed by ten digits starting with `7`; in particular the full
pipeline maps phone `07123 456789` to `+447123456789`. -/
theorem formatUKPhone_spec (s : String) (h : phoneAccept s = true) :
    (formatUKPhone s = specPhoneNormalize s ∧
      ∃ ds, formatUKPhone s = ⟨'+' :: '4' :: '4' :: '7' :: ds⟩ ∧
        ds.length = 9 ∧ (∀ x ∈ ds, x.isDigit = true)) ∧
    validatedPhone c3wit = "+447123456789" :=
  ⟨formatUKPhone_canonical h, by decide⟩

/-- **C3 witness.** The theorem applied to the phone `07123 456789`. -/
theorem formatUKPhone_spec_witness :
    phoneAccept "07123 456789" = true ∧
    formatUKPhone "07123 456789" = specPhoneNormalize "07123 456789" :=
  ⟨by decide, (formatUKPhone_spec "07123 456789" (by decide)).1.1⟩

/-- **C4.** For every input where all fields pass the schema checks, both
times are present and nonempty, and opening time is not earlier than
closing time (as minutes of day, the `Date` order used by the handler),
validation returns success — never ValidationFailed — with the non-fatal
warning string attached to the result. -/
theorem opening_after_closing_warns (r : RawForm) (t1 t2 : String)
    (hok : fieldErrors r = [])
    (ho : r.openingTime = some (.str t1)) (hc : r.closingTime = some (.str t2))
    (h1 : t1 ≠ "") (h2 : t2 ≠ "")
    (hge : timeToMinutes t2 ≤ timeToMinutes t1) :
    ∃ out, validate r = .ok (out, timeWarningMsg) ∧ timeWarningMsg ≠ "" := by
  obtain ⟨out, hout⟩ := validate_warning hok ho hc h1 h2 hge
  exact ⟨out, hout, by decide⟩

/-- **C4 witness.** Opening `18:00`, closing `09:00`, all else valid. -/
theorem opening_after_closing_warns_witness :
    ∃ out, validate c4wit = .ok (out, timeWarningMsg) ∧ timeWarningMsg ≠ "" :=
  opening_after_closing_warns c4wit "18:00" "09:00" (by decide) rfl rfl
    (by decide) (by decide) (by decide)

/-- **C5.** The form component normalization strips an `https://` scheme
and a leading `www.` so the stored website value is the bare domain (an
`http://` scheme is stripped the same way); in particular
`https://www.example.co.uk` is stored as `example.co.uk`. -/
theorem website_normalized_bare_domain :
    (∀ d : String, jsTrim ("https://www." ++ d) = "https://www." ++ d →
      submitDataWebsite (some ("https://www." ++ d)) = d) ∧
    (∀ d : String, jsTrim ("http://" ++ d) = "http://" ++ d →
      submitDataWebsite (some ("http://" ++ d)) = stripWww d) ∧
    submitDataWebsite (some "https://www.example.co.uk") = "example.co.uk" :=
  ⟨fun d h => submitDataWebsite_strip d h,
   fun d h => submitDataWebsite_strip_http d h, by decide⟩

/-- **C5 witness.** The general strip law at `example.co.uk`. -/
theorem website_normalized_bare_domain_witness :
    submitDataWebsite (some ("https://www." ++ "example.co.uk")) = "example.co.uk" :=
  website_normalized_bare_domain.1 "example.co.uk" (by decide)

/-- **C6, counterexample.** The claim's pattern (`07…`, `+44 7…`, `7…`
forms with optional internal spaces) does not cover `(07123) 456 789`,
yet the schema accepts that phone (the regex also allows parentheses), so
"not matching the pattern implies rejected" is false as stated. -/
theorem phone_pattern_counterexample :
    claimUKPattern "(07123) 456 789" = false ∧
    optFieldErr phoneCheckMsg (some (.str "(07123) 456 789")) = none ∧
    (validate c6cex).isOk = true := by decide

/-- **C6 (amended).** For every input whose phone is present, nonempty and
does not match the UK pattern extended with optional parentheses (the
three digit shapes after removing internal spaces *and parentheses*, at
least ten significant digits), the submission is rejected with a
validation error on the phone field; an absent or empty-string phone is
accepted. -/
theorem phone_pattern_rejection :
    (∀ (r : RawForm) (s : String), r.phone = some (.str s) → s ≠ "" →
      claimUKPatternParen s = false →
      ∃ errs, validate r = .error errs ∧ Field.phoneF ∈ errs.map Prod.fst) ∧
    optFieldErr phoneCheckMsg none = none ∧
    optFieldErr phoneCheckMsg (some (.str "")) = none := by
  refine ⟨?_, rfl, by decide⟩
  intro r s hp hne hpat
  have herr : ∃ m, optFieldErr phoneCheckMsg r.phone = some m := by
    rw [hp]
    have hred : optFieldErr phoneCheckMsg (some (.str s)) = phoneCheckMsg s := by
      simp only [optFieldErr]
      rw [if_neg (by simpa using hne)]
    rw [hred]
    cases hmsg : phoneCheckMsg s with
    | some m => exact ⟨m, rfl⟩
    | none =>
      have hacc := phoneCheckMsg_none_iff.mp hmsg
      rw [phoneAccept_claimPatternParen hacc] at hpat
      exact absurd hpat (by simp)
  obtain ⟨m, hm⟩ := herr
  have hmem := phoneF_mem_fieldErrors hm
  refine ⟨fieldErrors r, validate_error_eq (List.ne_nil_of_mem hmem), ?_⟩
  exact List.mem_map_of_mem Prod.fst hmem

/-- **C6 witness.** The amended claim at the non-UK phone `12345`. -/
theorem phone_pattern_rejection_witness :
    ∃ errs, validate c6wit = .error errs ∧ Field.phoneF ∈ errs.map Prod.fst :=
  phone_pattern_rejection.1 c6wit "12345" rfl (by decide) (by decide)

/-- **C7.** `addEmail` is idempotent per normalized email: on a store with
at most one entry per email, a second call whose email normalizes to the
same key returns the same entry id as the first, leaves the store exactly
as after the first call (so name and phone of the existing entry are not
updated), and exactly one entry with that normalized email exists
afterwards. -/
theorem waitlist_addEmail_idempotent (st : WaitlistStore) (e1 e2 : String)
    (n1 p1 n2 p2 : Option String) (hwf : emailUnique st)
    (heq : normalizeEmail e2 = normalizeEmail e1) :
    (addEmail (addEmail st e1 n1 p1).1 e2 n2 p2).2 = (addEmail st e1 n1 p1).2 ∧
    (addEmail (addEmail st e1 n1 p1).1 e2 n2 p2).1 = (addEmail st e1 n1 p1).1 ∧
    ((addEmail (addEmail st e1 n1 p1).1 e2 n2 p2).1.entries.filter
        (fun x => x.email == normalizeEmail e1)).length = 1 := by
  obtain ⟨hpair, hcount⟩ := addEmail_repeat hwf heq
  refine ⟨?_, ?_, ?_⟩
  · rw [hpair]
  · rw [hpair]
  · rw [hpair]
    exact hcount

/-- **C7 witness.** `A@B.com` then `a@b.com` on the empty store. -/
theorem waitlist_addEmail_idempotent_witness :
    (addEmail (addEmail ⟨[], 0⟩ "A@B.com" none none).1 "a@b.com" none none).2 =
      (addEmail ⟨[], 0⟩ "A@B.com" none none).2 ∧
    (addEmail (addEmail ⟨[], 0⟩ "A@B.com" none none).1 "a@b.com" none none).1 =
      (addEmail ⟨[], 0⟩ "A@B.com" none none).1 ∧
    ((addEmail (addEmail ⟨[], 0⟩ "A@B.com" none none).1 "a@b.com" none
        none).1.entries.filter
      (fun x => x.email == normalizeEmail "A@B.com")).length = 1 :=
  waitlist_addEmail_idempotent ⟨[], 0⟩ "A@B.com" "a@b.com" none none none none
    List.Pairwise.nil (by decide)

/-- **C8.** The POST handler rejects every parsed body that is not a JSON
object — null, booleans, numbers, strings and arrays — as a malformed
request with HTTP status 400, and on every input whatsoever it returns one
of the three structured responses (malformed, validation failure, or
created): no input escapes as a thrown error. -/
theorem apiPOST_shape_check :
    (∀ j : Json, (∀ fields, j ≠ .obj fields) →
      apiPOST j = .malformed ∧ statusOf (apiPOST j) = 400) ∧
    (∀ j : Json, apiPOST j = .malformed ∨
      (∃ errs, apiPOST j = .validationFailed errs) ∨
      (∃ out w, apiPOST j = .created out w)) := by
  constructor
  · intro j h
    cases j with
    | obj fields => exact absurd rfl (h fields)
    | null => exact ⟨rfl, rfl⟩
    | bool b =>
      constructor
      · simp [apiPOST, malformedShape, jsFalsy, typeofIsObject, isJsArray]
      · simp [apiPOST, malformedShape, jsFalsy, typeofIsObject, isJsArray, statusOf]
    | num n =>
      constructor
      · simp [apiPOST, malformedShape, jsFalsy, typeofIsObject, isJsArray]
      · simp [apiPOST, malformedShape, jsFalsy, typeofIsObject, isJsArray, statusOf]
    | str s =>
      constructor
      · simp [apiPOST, malformedShape, jsFalsy, typeofIsObject, isJsArray]
      · simp [apiPOST, malformedShape, jsFalsy, typeofIsObject, isJsArray, statusOf]
    | arr l =>
      constructor
      · simp [apiPOST, malformedShape, jsFalsy, typeofIsObject, isJsArray]
      · simp [apiPOST, malformedShape, jsFalsy, typeofIsObject, isJsArray, statusOf]
  · intro j
    cases happ : apiPOST j with
    | malformed => exact Or.inl rfl
    | validationFailed errs => exact Or.inr (Or.inl ⟨errs, rfl⟩)
    | created out w => exact Or.inr (Or.inr ⟨out, w, rfl⟩)

/-- **C8 witness.** The shape check at an array and at a number. -/
theorem apiPOST_shape_check_witness :
    (apiPOST (.arr []) = .malformed ∧ statusOf (apiPOST (.arr [])) = 400) ∧
    (apiPOST (.num 5) = .malformed ∧ statusOf (apiPOST (.num 5)) = 400) :=
  ⟨apiPOST_shape_check.1 (.arr []) (fun _ h => Json.noConfusion h),
   apiPOST_shape_check.1 (.num 5) (fun _ h => Json.noConfusion h)⟩

/-- **C9, counterexample.** The claim's example says the stored slug of
`Joe's Cafe` is `joescafe`; the code lowercases, hyphenates and strips the
hyphens but keeps the apostrophe, so the stored slug is `joe'scafe`. -/
theorem edit_slug_counterexample :
    removeHyphens (slugify "Joe\x27s Cafe") = "joe\x27scafe" ∧
    removeHyphens (slugify "Joe\x27s Cafe") ≠ "joescafe" := by decide

/-- **C9 (amended).** On the edit path, a successful `EditBusiness` stores
on the patched record the slug obtained by trimming and lowercasing the
name, replacing whitespace runs by hyphens, and stripping the hyphens back
out; the stored slug has no separators (no hyphens and no whitespace) but
keeps all other characters, e.g. `Joe's Cafe` yields `joe'scafe`, not
`joescafe`. -/
theorem edit_slug_no_separators (st st' : List Business)
    (name description email : String)
    (hne : slugify name ≠ "")
    (h : EditBusiness st name description email = .ok st') :
    ∃ b ∈ st', b.slug = some (removeHyphens (slugify name)) ∧ b.name = name ∧
      ∀ c ∈ (removeHyphens (slugify name)).data,
        (c == '-') = false ∧ isWsChar c = false := by
  obtain ⟨b, hb, hslug, hname⟩ :=
    @updateBusiness_stored_slug st st' ⟨some name, some description,
      some email, some (slugify name)⟩ name rfl rfl hne h
  exact ⟨b, hb, hslug, hname, removeHyphens_slugify_no_sep name⟩

/-- **C9 witness.** Editing `Joe's Cafe` in a one-business store. -/
theorem edit_slug_no_separators_witness :
    ∃ b ∈ c9storeAfter,
      b.slug = some (removeHyphens (slugify "Joe\x27s Cafe")) ∧
      b.name = "Joe\x27s Cafe" ∧
      ∀ c ∈ (removeHyphens (slugify "Joe\x27s Cafe")).data,
        (c == '-') = false ∧ isWsChar c = false :=
  edit_slug_no_separators c9store c9storeAfter "Joe\x27s Cafe" "A nice cafe."
    "joe@cafe.co" (by decide) rfl

/-- **C10.** If no business in the store has the slug derived from the
request and none has the requested name, `updateBusiness` fails with
`Business not found`; the result is the error alone — no record is
patched or created on this path. -/
theorem updateBusiness_not_found_unchanged (st : List Business)
    (args : UpdateBusinessArgs)
    (hslug : ∀ b ∈ st, ∀ s, desiredSlugOf args = some s → b.slug ≠ some s)
    (hname : ∀ b ∈ st, ∀ n, args.name = some n → n ≠ "" → b.name ≠ n) :
    updateBusiness st args = .error "Business not found" :=
  updateBusiness_not_found hslug hname

/-- **C10 witness.** A store holding only business `A`/slug `a`, updated
with name `B`/slug `b`. -/
theorem updateBusiness_not_found_unchanged_witness :
    updateBusiness [⟨0, "A", none, none, some "a"⟩]
      ⟨some "B", none, none, some "b"⟩ = .error "Business not found" :=
  updateBusiness_not_found_unchanged _ _
    (by
      intro b hb s hs
      simp only [List.mem_singleton] at hb
      subst hb
      have hd : desiredSlugOf ⟨some "B", none, none, some "b"⟩ = some "b" := by
        decide
      rw [hd] at hs
      injection hs with hs2
      subst hs2
      decide)
    (by
      intro b hb n hn hne2
      simp only [List.mem_singleton] at hb
      subst hb
      injection hn with hn2
      subst hn2
      decide)

end Onfindr
